import Mathlib

/-!
Shallow embedding of `scripts/generate_test_data.py`: the Salesforce
describe-driven test-data generator.  Randomness is modelled by an oracle
`RNG` supplying a stream of natural numbers; each Python `random.*` call
consumes one or more draws.  Theorems quantified over all oracles therefore
cover every execution of the Python program.
-/

namespace SfGen

/-- Oracle of random draws: a stream of naturals with a cursor. -/
structure RNG where
  stream : Nat → Nat
  pos : Nat

def RNG.next (g : RNG) : Nat × RNG :=
  (g.stream g.pos, ⟨g.stream, g.pos + 1⟩)

/-- `random.randint(a, b)`: one draw, reduced into the inclusive range. -/
def randint (a b : Nat) (g : RNG) : Nat × RNG :=
  let (k, g') := g.next
  (a + k % (b + 1 - a), g')

/-- `random.choice(l)` for non-empty `l`; `d` is a totalisation default. -/
def randChoice {α : Type} (l : List α) (d : α) (g : RNG) : α × RNG :=
  let (k, g') := g.next
  (l.getD (k % l.length) d, g')

/-- `random.sample(l, k)`: `k` distinct draws without replacement. -/
def randSample (l : List String) (k : Nat) (g : RNG) : List String × RNG :=
  match k with
  | 0 => ([], g)
  | k + 1 =>
    if l.isEmpty then ([], g)
    else
      let (i, g1) := g.next
      let idx := i % l.length
      let (rest, g2) := randSample (l.eraseIdx idx) k g1
      (l.getD idx "" :: rest, g2)

/- ### Character pools (HIRAGANA / KATAKANA / KANJI, weighted 45/45/10) -/

def HIRAGANA : List Char := (List.range (0x3097 - 0x3041)).map (fun i => Char.ofNat (0x3041 + i))
def KATAKANA : List Char := (List.range (0x30FB - 0x30A1)).map (fun i => Char.ofNat (0x30A1 + i))
def KANJI : List Char := (List.range (0x9FFF - 0x4E00)).map (fun i => Char.ofNat (0x4E00 + i))

/-- `random.choices(POOLS, weights=[0.45,0.45,0.10])[0]` then `random.choice(pool)`:
    the weighted pool pick is modelled by one draw taken mod 100. -/
def randPoolChar (g : RNG) : Char × RNG :=
  let (k, g1) := g.next
  let pool := if k % 100 < 45 then HIRAGANA else if k % 100 < 90 then KATAKANA else KANJI
  randChoice pool ' ' g1

/-- `random_japanese(length)`. -/
def random_japanese (len : Nat) (g : RNG) : String × RNG :=
  match len with
  | 0 => ("", g)
  | n + 1 =>
    let (c, g1) := randPoolChar g
    let (s, g2) := random_japanese n g1
    (String.mk (c :: s.data), g2)

/- ### Decimal rendering (`str(i)` on a non-negative int) -/

/-- Little-endian base-10 digits, fuel-bounded so it reduces in the kernel. -/
def digitsRev (fuel n : Nat) : List Nat :=
  match fuel, n with
  | 0, _ => []
  | _, 0 => []
  | f + 1, n + 1 => ((n + 1) % 10) :: digitsRev f ((n + 1) / 10)

def natRepr (n : Nat) : String :=
  if n = 0 then "0" else String.mk (((digitsRev n n).map Nat.digitChar).reverse)

def intRepr (i : Int) : String :=
  if i < 0 then "-" ++ natRepr (-i).toNat else natRepr i.toNat

/-- A run of `n` draws of `str(random.randint(0, 9))` joined together. -/
def randDigitStr (n : Nat) (g : RNG) : String × RNG :=
  match n with
  | 0 => ("", g)
  | n + 1 =>
    let (k, g1) := g.next
    let (s, g2) := randDigitStr n g1
    (String.mk (Nat.digitChar (k % 10) :: s.data), g2)

/-- `random_number(precision, scale)`.  `max(1, precision - scale)` matches the
    Python expression: a negative difference also yields 1, like Nat subtraction. -/
def random_number (precision scale : Nat) (g : RNG) : String × RNG :=
  let int_d := max 1 (precision - scale)
  let r := randint 0 (10 ^ int_d - 1) g
  if 0 < scale then
    let f := randDigitStr scale r.2
    (natRepr r.1 ++ "." ++ f.1, f.2)
  else
    (natRepr r.1, r.2)

/- ### Phone / email / URL -/

def LOWER_ALNUM : List Char := "abcdefghijklmnopqrstuvwxyz0123456789".data

def randAlnum (n : Nat) (g : RNG) : String × RNG :=
  match n with
  | 0 => ("", g)
  | n + 1 =>
    let (c, g1) := randChoice LOWER_ALNUM ' ' g
    let (s, g2) := randAlnum n g1
    (String.mk (c :: s.data), g2)

/-- `random_phone()`; the `random.random() < 0.5` coin is one draw mod 2. -/
def random_phone (g : RNG) : String × RNG :=
  let (coin, g0) := g.next
  let (pre, g1) :=
    if coin % 2 = 0 then randChoice ["090", "080", "070"] "" g0
    else
      let (l, ga) := randChoice [2, 3, 4] 0 g0
      let (ds, gb) := randDigitStr (l - 1) ga
      ("0" ++ ds, gb)
  let (mid, g2) := randDigitStr 4 g1
  let (last, g3) := randDigitStr 4 g2
  (pre ++ "-" ++ mid ++ "-" ++ last, g3)

def random_email (g : RNG) : String × RNG :=
  let (l, g1) := randint 6 12 g
  let (loc, g2) := randAlnum l g1
  (loc ++ "@example.com", g2)

def random_url (g : RNG) : String × RNG :=
  let (l, g1) := randint 5 12 g
  let (path, g2) := randAlnum l g1
  ("https://example.com/" ++ path, g2)

/- ### Dates (proleptic Gregorian, as Python `datetime.date`) -/

/-- Days since 1970-01-01 of a civil date (Hinnant's algorithm). -/
def daysFromCivil (y : Int) (m d : Nat) : Int :=
  let y' := if m ≤ 2 then y - 1 else y
  let era := (if 0 ≤ y' then y' else y' - 399) / 400
  let yoe := y' - era * 400
  let mp : Int := if 2 < m then (m : Int) - 3 else (m : Int) + 9
  let doy := (153 * mp + 2) / 5 + d - 1
  let doe := yoe * 365 + yoe / 4 - yoe / 100 + doy
  era * 146097 + doe - 719468

/-- Civil date from days since 1970-01-01 (Hinnant's algorithm). -/
def civilFromDays (z0 : Int) : Int × Nat × Nat :=
  let z := z0 + 719468
  let era := (if 0 ≤ z then z else z - 146096) / 146097
  let doe := z - era * 146097
  let yoe := (doe - doe / 1460 + doe / 36524 - doe / 146096) / 365
  let y := yoe + era * 400
  let doy := doe - (365 * yoe + yoe / 4 - yoe / 100)
  let mp := (5 * doy + 2) / 153
  let d := doy - (153 * mp + 2) / 5 + 1
  let m := if mp < 10 then mp + 3 else mp - 9
  (if m ≤ 2 then y + 1 else y, m.toNat, d.toNat)

def MIN_DATE_ORD : Int := daysFromCivil 1700 1 1
def DATE_RANGE_DAYS : Nat := (daysFromCivil 4000 12 31 - MIN_DATE_ORD).toNat

def pad2 (n : Nat) : String := if n < 10 then "0" ++ natRepr n else natRepr n
def pad3 (n : Nat) : String :=
  if n < 10 then "00" ++ natRepr n else if n < 100 then "0" ++ natRepr n else natRepr n

def fmtDate (z : Int) : String :=
  let (y, m, d) := civilFromDays z
  natRepr y.toNat ++ "-" ++ pad2 m ++ "-" ++ pad2 d

/-- `random_date()`: uniform day offset in the fixed range, `%Y-%m-%d`. -/
def random_date (g : RNG) : String × RNG :=
  let (k, g1) := randint 0 DATE_RANGE_DAYS g
  (fmtDate (MIN_DATE_ORD + k), g1)

def DT_RANGE_SECONDS : Nat := DATE_RANGE_DAYS * 86400 + 86400

/-- `random_datetime()`: the float `random.random()*DT_RANGE` is modelled at
    millisecond granularity by two draws (seconds and milliseconds). -/
def random_datetime (g : RNG) : String × RNG :=
  let (k1, g1) := g.next
  let (k2, g2) := g1.next
  let s := k1 % DT_RANGE_SECONDS
  let ms := k2 % 1000
  let rest := s % 86400
  (fmtDate (MIN_DATE_ORD + s / 86400) ++ "T" ++ pad2 (rest / 3600) ++ ":" ++
    pad2 (rest % 3600 / 60) ++ ":" ++ pad2 (rest % 60) ++ "." ++ pad3 ms ++ "Z", g2)

/-- `f"{random.uniform(-90,90):.6f}"`: the float is modelled by an integer
    degree draw and six fractional digit draws. -/
def random_latitude (g : RNG) : String × RNG :=
  let (k, g1) := g.next
  let (frac, g2) := randDigitStr 6 g1
  (intRepr ((k % 181 : Nat) - 90 : Int) ++ "." ++ frac, g2)

def random_longitude (g : RNG) : String × RNG :=
  let (k, g1) := g.next
  let (frac, g2) := randDigitStr 6 g1
  (intRepr ((k % 361 : Nat) - 180 : Int) ++ "." ++ frac, g2)

/- ### Base64 decoding and the validFor bitmask -/

def b64val (c : Char) : Option Nat :=
  if 'A' ≤ c ∧ c ≤ 'Z' then some (c.toNat - 65)
  else if 'a' ≤ c ∧ c ≤ 'z' then some (c.toNat - 71)
  else if '0' ≤ c ∧ c ≤ '9' then some (c.toNat + 4)
  else if c = '+' then some 62
  else if c = '/' then some 63
  else none

/-- Sextet groups to bytes; a trailing group of 2 or 3 sextets yields the
    partial bytes, a lone sextet is invalid. -/
def b64quads : List Nat → Option (List Nat)
  | [] => some []
  | [_] => none
  | [a, b] => some [a * 4 + b / 16]
  | [a, b, c] => some [a * 4 + b / 16, b % 16 * 16 + c / 4]
  | a :: b :: c :: d :: rest =>
    (b64quads rest).map
      (fun tl => (a * 4 + b / 16) :: (b % 16 * 16 + c / 4) :: (c % 4 * 64 + d) :: tl)

/-- `base64.b64decode`: characters outside the alphabet are discarded, then
    the padded length must be a multiple of four; `none` models the raised
    `binascii.Error`. -/
def b64decode (s : String) : Option (List Nat) :=
  let kept := s.data.filter (fun c => (b64val c).isSome || c = '=')
  let body := kept.takeWhile (fun c => c ≠ '=')
  let pad := kept.drop body.length
  if pad.all (fun c => c = '=') ∧ pad.length ≤ 2 ∧ (body.length + pad.length) % 4 = 0 then
    b64quads (body.filterMap b64val)
  else none

/-- `decode_valid_for(v)`: any decoding failure collapses to `b''`. -/
def decode_valid_for (v : String) : List Nat :=
  (b64decode v).getD []

/-- `valid_for(vb, idx)`. -/
def valid_for (vb : List Nat) (idx : Nat) : Nat :=
  if vb ≠ [] ∧ idx / 8 < vb.length then vb.getD (idx / 8) 0 >>> (7 - idx % 8) &&& 1 else 0

/- ### Schema model (the describe JSON's `result` object) -/

/-- One entry of a field's `picklistValues`; each key may be absent. -/
structure PickOpt where
  value? : Option String
  label? : Option String
  validFor? : Option String
deriving DecidableEq, Repr

/-- One entry of `fields`.  Boolean keys carry their `.get` defaults
    (`nillable`/`calculated` default false, `createable` default true). -/
structure FieldDef where
  name : String
  type? : Option String
  length? : Option Nat
  precision? : Option Nat
  scale? : Option Nat
  nillable : Bool
  createable : Bool
  calculated : Bool
  picklistValues : List PickOpt
  controllerName? : Option String
  compoundFieldName? : Option String
deriving DecidableEq, Repr

structure RecordTypeInfo where
  recordTypeId : String
  developerName? : Option String
  name? : Option String
  active : Bool
deriving DecidableEq, Repr

structure Describe where
  fields : List FieldDef
  recordTypeInfos : List RecordTypeInfo
deriving DecidableEq, Repr

/-- Python truthiness on an optional string: `None` and `''` are falsy. -/
def truthy (o : Option String) : Option String :=
  match o with
  | some s => if s = "" then none else some s
  | none => none

/-- `x.get(k) or d` on an integer-valued key: `None` and `0` give `d`. -/
def pyOrNat (o : Option Nat) (d : Nat) : Nat :=
  match o with
  | some n => if n = 0 then d else n
  | none => d

/-- Python dict lookup on an insertion-ordered association list:
    the latest binding of a key wins. -/
def dictGet {α : Type} (m : List (String × α)) (k : String) : Option α :=
  (m.reverse.find? (fun p => p.1 = k)).map (fun p => p.2)

/- ### Character-list string helpers (startswith / endswith / lower) -/

def strStarts (s p : String) : Bool := p.data.isPrefixOf s.data
def strEnds (s p : String) : Bool := p.data.isSuffixOf s.data
def strDropRight (s : String) (n : Nat) : String := String.mk (s.data.take (s.data.length - n))
def strDrop (s : String) (n : Nat) : String := String.mk (s.data.drop n)

def charLower (c : Char) : Char :=
  if 'A' ≤ c ∧ c ≤ 'Z' then Char.ofNat (c.toNat + 32) else c

/-- `str.lower()`; field type codes are ASCII, so ASCII lowering suffices. -/
def strLower (s : String) : String := String.mk (s.data.map charLower)

/- ### Constants from the script -/

def SYSTEM_FIELDS : List String :=
  ["IsDeleted", "CreatedById", "CreatedDate", "LastModifiedById", "LastModifiedDate",
   "SystemModstamp"]

def EXCLUDE_RT_NAMES : List String := ["マスター", "マスタ"]

def NUMERIC_TYPES : List String := ["double", "currency", "percent", "int", "integer"]

/- ### Load-time filtering -/

def usableField (f : FieldDef) : Bool := ¬f.calculated ∧ f.name ∉ SYSTEM_FIELDS

def filteredFields (meta : Describe) : List FieldDef :=
  meta.fields.filter usableField

def eligibleRT (rt : RecordTypeInfo) : Bool :=
  rt.active && (match rt.name? with
    | some n => decide (n ∉ EXCLUDE_RT_NAMES)
    | none => true)

def rtinfos (meta : Describe) : List RecordTypeInfo :=
  meta.recordTypeInfos.filter eligibleRT

def all_rts (meta : Describe) : List String :=
  (rtinfos meta).map (fun rt => rt.recordTypeId)

def id_to_dev (meta : Describe) : List (String × Option String) :=
  (rtinfos meta).map (fun rt => (rt.recordTypeId, rt.developerName?))

def header (meta : Describe) : List String :=
  (filteredFields meta).map (fun f => f.name)

/- ### Compound-group and dependent-picklist tables -/

/-- The compound-group prefix of a field (`''` when it has none). -/
def compOf (fdef : FieldDef) : String :=
  let comp_raw := (fdef.compoundFieldName?).getD ""
  if strEnds comp_raw "__c" then strDropRight comp_raw 3
  else if strEnds comp_raw "Address" then strDropRight comp_raw 7
  else ""

def apiOf (fdef : FieldDef) : String :=
  if strEnds fdef.name "__s" then strDropRight fdef.name 3 else fdef.name

/-- The field's role suffix relative to a group prefix `comp`. -/
def suffixOf (fdef : FieldDef) (comp : String) : String :=
  let api := apiOf fdef
  let suffix := if strStarts api comp then strDrop api comp.length else ""
  String.mk (suffix.data.dropWhile (fun c => c = '_'))

/-- `ctrl_vals_map.get(ctrl, [])`: option values of the first field named
    `ctrl` (an absent field leaves no cache entry, hence `[]`). -/
def ctrlVals (fields : List FieldDef) (ctrl : String) : List String :=
  match fields.find? (fun x => x.name = ctrl) with
  | some cont => cont.picklistValues.filterMap (fun o => o.value?)
  | none => []

/-- `dep_map[fdef['name']]`: controller index to allowed dependent values.
    `o['value']` is modelled with a default for an absent key. -/
def depEntry (fields : List FieldDef) (ctrl : String) (fdef : FieldDef) : List (List String) :=
  let vals := ctrlVals fields ctrl
  let raw := fdef.picklistValues
  let vbs := raw.map (fun o => decode_valid_for ((o.validFor?).getD ""))
  (List.range vals.length).map (fun i =>
    (vbs.zip raw).filterMap (fun p =>
      if valid_for p.1 i ≠ 0 then some ((p.2.value?).getD "") else none))

def dep_map (fields : List FieldDef) : List (String × List (List String)) :=
  fields.foldl (fun acc fdef =>
    match truthy fdef.controllerName? with
    | some ctrl => acc ++ [(fdef.name, depEntry fields ctrl fdef)]
    | none => acc) []

/-- A `{'value': v, 'label': l}` pair from a picklist option. -/
structure CLPair where
  value : String
  label : String
deriving DecidableEq, Repr

def clPairs (opts : List PickOpt) : List CLPair :=
  opts.filterMap (fun o =>
    match o.value?, o.label? with
    | some v, some l => some ⟨v, l⟩
    | _, _ => none)

/-- One state-table row: the state options whose mask admits country
    index `idx`, as value/label pairs. -/
def stateOptsAt (raw : List PickOpt) (idx : Nat) : List CLPair :=
  raw.filterMap (fun o =>
    if valid_for (decode_valid_for ((o.validFor?).getD "")) idx ≠ 0 then
      match o.value?, o.label? with
      | some v, some l => some (⟨v, l⟩ : CLPair)
      | _, _ => none
    else none)

/-- One prepare-loop iteration of the `country_map`/`state_map` build. -/
def buildStep (acc : List (String × List CLPair) × List (String × List (List CLPair)))
    (fdef : FieldDef) :
    List (String × List CLPair) × List (String × List (List CLPair)) :=
  let comp := compOf fdef
  if comp = "" then acc
  else
    let suffix := suffixOf fdef comp
    if suffix = "CountryCode" then
      (acc.1 ++ [(comp, clPairs fdef.picklistValues)], acc.2)
    else if suffix = "StateCode" then
      let countries := (dictGet acc.1 comp).getD []
      (acc.1, acc.2 ++ [(comp, (List.range countries.length).map
        (stateOptsAt fdef.picklistValues))])
    else acc

/-- `country_map` and `state_map`, built over the fields in order: a
    StateCode field only sees the country entries recorded before it. -/
def buildCompoundMaps (fields : List FieldDef) :
    List (String × List CLPair) × List (String × List (List CLPair)) :=
  fields.foldl buildStep ([], [])

/- ### Per-row generation -/

/-- `random.choice(all_rts)` when any eligible record type exists, else `''`. -/
def pickRT (meta : Describe) (g : RNG) : String × RNG :=
  if all_rts meta ≠ [] then randChoice (all_rts meta) "" g else ("", g)

/-- `args.person_rt_dev_name and dev == args.person_rt_dev_name`. -/
def personFlag (meta : Describe) (p? : Option String) (rt : String) : Bool :=
  match truthy p? with
  | some p => (dictGet (id_to_dev meta) rt).getD none = some p
  | none => false

/-- Type-directed dispatch: lines 252-277 of the script. -/
def genByType (fdef : FieldDef) (g : RNG) : String × RNG :=
  let t := strLower ((fdef.type?).getD "")
  if t = "string" ∨ t = "textarea" then
    let max_len := pyOrNat fdef.length? 0
    let min_len := if fdef.nillable then 0 else 1
    if 0 < max_len then
      let (len, g1) := randint min_len max_len g
      random_japanese len g1
    else random_japanese 0 g
  else if t = "picklist" then
    let opts := fdef.picklistValues.filterMap (fun o => o.value?)
    if opts ≠ [] then randChoice opts "" g else ("", g)
  else if t = "multipicklist" ∨ t = "multiselectpicklist" then
    let opts := fdef.picklistValues.filterMap (fun o => o.value?)
    if opts ≠ [] then
      let (k, g1) := randint 1 opts.length g
      let (sel, g2) := randSample opts k g1
      (String.intercalate ";" sel, g2)
    else ("", g)
  else if t ∈ NUMERIC_TYPES then
    random_number (pyOrNat fdef.precision? 0) (pyOrNat fdef.scale? 0) g
  else if t = "phone" then random_phone g
  else if t = "email" then random_email g
  else if t = "url" then random_url g
  else if t = "date" then random_date g
  else if t = "datetime" then random_datetime g
  else ("", g)

/-- One cell: lines 184-277 of the script for a single field.  Returns the
    cell value, the updated `comp_sel`, and the advanced random state. -/
def genCell (fields : List FieldDef) (skips : List String) (rt : String) (isP : Bool)
    (depm : List (String × List (List String)))
    (cmap : List (String × List CLPair)) (smap : List (String × List (List CLPair)))
    (row : List (String × String)) (csel : List (String × CLPair)) (g : RNG)
    (fdef : FieldDef) : String × List (String × CLPair) × RNG :=
  let nm := fdef.name
  if ¬fdef.createable ∨ nm ∈ skips then ("", csel, g)
  else if nm = "RecordTypeId" then (rt, csel, g)
  else if strStarts nm "Person" ∧ ¬isP then ("", csel, g)
  else if strEnds nm "__pc" then
    if isP then
      let r := random_japanese 10 g
      (r.1, csel, r.2)
    else ("", csel, g)
  else if nm = "Name" then
    if isP then ("", csel, g)
    else
      let r := random_japanese (min (pyOrNat fdef.length? 10) 50) g
      (r.1, csel, r.2)
  else if nm = "LastName" then
    if isP then
      let r := random_japanese 10 g
      (r.1, csel, r.2)
    else ("", csel, g)
  else if nm = "FirstName" then
    if isP then
      let r := random_japanese 10 g
      (r.1, csel, r.2)
    else ("", csel, g)
  else if nm = "Salutation" then
    if isP then
      let opts := fdef.picklistValues.filterMap (fun o => o.value?)
      if opts ≠ [] then
        let r := randChoice opts "" g
        (r.1, csel, r.2)
      else ("", csel, g)
    else ("", csel, g)
  else
    let comp := compOf fdef
    let suffix := suffixOf fdef comp
    if comp ≠ "" ∧ suffix = "CountryCode" then
      let opts := (dictGet cmap comp).getD []
      if opts ≠ [] then
        let r := randChoice opts ⟨"", ""⟩ g
        (r.1.value, csel ++ [(comp, r.1)], r.2)
      else ("", csel ++ [(comp, (⟨"", ""⟩ : CLPair))], g)
    else if comp ≠ "" ∧ suffix = "Country" then
      (((dictGet csel comp).map (fun c => c.label)).getD "", csel, g)
    else if comp ≠ "" ∧ suffix = "StateCode" then
      let countries := (dictGet cmap comp).getD []
      let idx := (countries.findIdx? (fun e => some e = dictGet csel comp)).getD 0
      let opts := ((dictGet smap comp).getD []).getD idx []
      if opts ≠ [] then
        let r := randChoice opts ⟨"", ""⟩ g
        (r.1.value, csel ++ [(comp ++ "_state", r.1)], r.2)
      else ("", csel ++ [(comp ++ "_state", (⟨"", ""⟩ : CLPair))], g)
    else if comp ≠ "" ∧ suffix = "State" then
      (((dictGet csel (comp ++ "_state")).map (fun c => c.label)).getD "", csel, g)
    else if comp ≠ "" ∧ suffix = "City" then
      let l0 := min (pyOrNat fdef.length? 0) 10
      let l := if l0 = 0 then 10 else l0
      let r := random_japanese l g
      (r.1, csel, r.2)
    else if comp ≠ "" ∧ suffix = "PostalCode" then
      let r1 := randint 100 999 g
      let r2 := randint 1000 9999 r1.2
      (natRepr r1.1 ++ "-" ++ natRepr r2.1, csel, r2.2)
    else if comp ≠ "" ∧ suffix = "Street" then
      let r := random_japanese (pyOrNat fdef.length? 20) g
      (r.1, csel, r.2)
    else if suffix = "Latitude" then
      let r := random_latitude g
      (r.1, csel, r.2)
    else if suffix = "Longitude" then
      let r := random_longitude g
      (r.1, csel, r.2)
    else
      match truthy fdef.controllerName? with
      | some ctrl =>
        match dictGet row ctrl with
        | some rv =>
          let vals := ctrlVals fields ctrl
          let idx := if rv ∈ vals then vals.indexOf rv else 0
          let opts := ((dictGet depm nm).getD []).getD idx []
          if opts ≠ [] then
            let r := randChoice opts "" g
            (r.1, csel, r.2)
          else ("", csel, g)
        | none =>
          let r := genByType fdef g
          (r.1, csel, r.2)
      | none =>
        let r := genByType fdef g
        (r.1, csel, r.2)

structure RowState where
  row : List (String × String)
  csel : List (String × CLPair)
  g : RNG

/-- One field's step: `row[nm] = value` plus the side effects of `genCell`. -/
def genField (fields : List FieldDef) (skips : List String) (rt : String) (isP : Bool)
    (depm : List (String × List (List String)))
    (cmap : List (String × List CLPair)) (smap : List (String × List (List CLPair)))
    (st : RowState) (fdef : FieldDef) : RowState :=
  let r := genCell fields skips rt isP depm cmap smap st.row st.csel st.g fdef
  ⟨st.row ++ [(fdef.name, r.1)], r.2.1, r.2.2⟩

/-- One body row of the CSV. -/
def genRow (meta : Describe) (skips : List String) (p? : Option String) (g : RNG) :
    List (String × String) × RNG :=
  let fields := filteredFields meta
  let rtg := pickRT meta g
  let isP := personFlag meta p? rtg.1
  let maps := buildCompoundMaps fields
  let depm := dep_map fields
  let fin := fields.foldl (genField fields skips rtg.1 isP depm maps.1 maps.2) ⟨[], [], rtg.2⟩
  (fin.row, fin.g)

/-- All requested body rows, threading the random state. -/
def genRows (meta : Describe) (skips : List String) (p? : Option String) :
    Nat → RNG → List (List (String × String))
  | 0, _ => []
  | n + 1, g =>
    let r := genRow meta skips p? g
    r.1 :: genRows meta skips p? n r.2

/-- A field name marking a cell populated only for person-variant rows. -/
def isPersonOnlyName (nm : String) : Prop :=
  nm = "LastName" ∨ nm = "FirstName" ∨ nm = "Salutation" ∨
    strStarts nm "Person" = true ∨ strEnds nm "__pc" = true

instance (nm : String) : Decidable (isPersonOnlyName nm) := by
  unfold isPersonOnlyName
  infer_instance

/-- `pr` is the value/label pairing of one of `f`'s picklist options. -/
def optionPair (f : FieldDef) (pr : CLPair) : Prop :=
  ∃ o ∈ f.picklistValues, o.value? = some pr.value ∧ o.label? = some pr.label

/- ### Concrete inputs used by witnesses and counterexamples -/

/-- The all-zero random oracle. -/
def gZero : RNG := ⟨fun _ => 0, 0⟩

/-- Oracle drawing 1 first, then 0 forever. -/
def gOne : RNG := ⟨fun n => if n = 0 then 1 else 0, 0⟩

/-- A dependent picklist placed before its controller in field order:
    option `a` is legal for controller index 0, `b` for index 1. -/
def fDepBefore : FieldDef :=
  ⟨"DepField", some "picklist", none, none, none, true, true, false,
    [⟨some "a", some "A", some "gA=="⟩, ⟨some "b", some "B", some "QA=="⟩],
    some "CtrlField", none⟩

def fCtrlAfter : FieldDef :=
  ⟨"CtrlField", some "picklist", none, none, none, true, true, false,
    [⟨some "x", some "X", none⟩, ⟨some "y", some "Y", none⟩], none, none⟩

def metaDepBefore : Describe := ⟨[fDepBefore, fCtrlAfter], []⟩

/-- A schema whose only field is calculated, so the filtered list is empty. -/
def metaAllCalc : Describe :=
  ⟨[⟨"Calc__c", some "string", some 10, none, none, true, true, true, [], none, none⟩], []⟩

/-- Compound group `Test`: country option JP/Japan, state option 13/Tokyo
    legal for country index 0. -/
def fTestCC : FieldDef :=
  ⟨"TestCountryCode", some "picklist", none, none, none, true, true, false,
    [⟨some "JP", some "Japan", none⟩], none, some "TestAddress"⟩

def fTestCountry : FieldDef :=
  ⟨"TestCountry", some "string", some 80, none, none, true, true, false, [], none,
    some "TestAddress"⟩

def fTestSC : FieldDef :=
  ⟨"TestStateCode", some "picklist", none, none, none, true, true, false,
    [⟨some "13", some "Tokyo", some "gA=="⟩], none, some "TestAddress"⟩

def fTestState : FieldDef :=
  ⟨"TestState", some "string", some 80, none, none, true, true, false, [], none,
    some "TestAddress"⟩

def metaCompound : Describe := ⟨[fTestCC, fTestCountry, fTestSC, fTestState], []⟩

/-- Colliding group prefixes "X" and "X_state": the generator keeps one flat
    selection dict whose state entries are keyed prefix ++ "_state", so group
    "X_state"'s Country label reads group "X"'s state selection. -/
def fXCC : FieldDef :=
  ⟨"XCountryCode", some "picklist", none, none, none, true, true, false,
    [⟨some "US", some "United States", none⟩], none, some "XAddress"⟩

def fXSC : FieldDef :=
  ⟨"XStateCode", some "picklist", none, none, none, true, true, false,
    [⟨some "CA", some "California", some "gA=="⟩], none, some "XAddress"⟩

def fXSCountry : FieldDef :=
  ⟨"X_stateCountry", some "string", some 80, none, none, true, true, false, [], none,
    some "X_stateAddress"⟩

def metaCollide : Describe := ⟨[fXCC, fXSC, fXSCountry], []⟩

def fName : FieldDef :=
  ⟨"Name", some "string", some 80, none, none, false, true, false, [], none, none⟩

def fLastName : FieldDef :=
  ⟨"LastName", some "string", some 80, none, none, true, true, false, [], none, none⟩

def fRecordTypeId : FieldDef :=
  ⟨"RecordTypeId", some "reference", none, none, none, true, true, false, [], none, none⟩

def rtPerson : RecordTypeInfo := ⟨"rt1", some "PersonRT", some "Person Account", true⟩

def metaPerson : Describe := ⟨[fRecordTypeId, fName, fLastName], [rtPerson]⟩

def fPlainText : FieldDef :=
  ⟨"Memo__c", some "string", some 5, none, none, false, true, false, [], none, none⟩

def fPlainNumber : FieldDef :=
  ⟨"Amount__c", some "double", none, some 3, some 2, true, true, false, [], none, none⟩

def fPlainNumberNoScale : FieldDef :=
  ⟨"Count__c", some "double", none, some 3, some 0, true, true, false, [], none, none⟩

/- ### Basic lemmas about the random primitives -/

theorem random_japanese_length (n : Nat) : ∀ g : RNG, ((random_japanese n g).1).length = n := by
  induction n with
  | zero => intro g; rfl
  | succ n ih =>
    intro g
    show (String.mk ((randPoolChar g).1 :: (random_japanese n (randPoolChar g).2).1.data)).length
      = n + 1
    have := ih (randPoolChar g).2
    simp only [String.length] at this ⊢
    simp [this]

theorem random_japanese_ne_empty (n : Nat) (g : RNG) (h : 0 < n) :
    (random_japanese n g).1 ≠ "" := by
  intro he
  have := random_japanese_length n g
  rw [he] at this
  simp [String.length] at this
  omega

theorem randint_bounds (a b : Nat) (g : RNG) (h : a ≤ b) :
    a ≤ (randint a b g).1 ∧ (randint a b g).1 ≤ b := by
  have hm : g.stream g.pos % (b + 1 - a) < b + 1 - a := Nat.mod_lt _ (by omega)
  constructor <;> simp only [randint, RNG.next] <;> omega

theorem randChoice_mem {α : Type} (l : List α) (d : α) (g : RNG) (h : l ≠ []) :
    (randChoice l d g).1 ∈ l := by
  have hl : 0 < l.length := List.length_pos.mpr h
  have hlt : g.stream g.pos % l.length < l.length := Nat.mod_lt _ hl
  show l.getD (g.stream g.pos % l.length) d ∈ l
  rw [List.getD_eq_getElem?_getD, List.getElem?_eq_getElem hlt]
  exact List.getElem_mem hlt

theorem digitsRev_length_le :
    ∀ (f n d : Nat), n ≤ f → n < 10 ^ d → (digitsRev f n).length ≤ d := by
  intro f
  induction f with
  | zero => intro n d _ _; cases n <;> simp [digitsRev]
  | succ f ih =>
    intro n d hn hp
    match n with
    | 0 => simp [digitsRev]
    | n + 1 =>
      obtain ⟨d', rfl⟩ : ∃ d', d = d' + 1 := by
        refine ⟨d - 1, ?_⟩
        rcases Nat.eq_zero_or_pos d with h0 | h0
        · subst h0; simp at hp
        · omega
      show (((n + 1) % 10) :: digitsRev f ((n + 1) / 10)).length ≤ d' + 1
      simp only [List.length_cons, Nat.add_le_add_iff_right]
      apply ih
      · have := Nat.div_lt_self (Nat.succ_pos n) (by norm_num : 1 < 10)
        omega
      · rw [Nat.div_lt_iff_lt_mul (by norm_num : 0 < 10)]
        calc n + 1 < 10 ^ (d' + 1) := hp
        _ = 10 ^ d' * 10 := by ring

theorem natRepr_length_le (n d : Nat) (h1 : 1 ≤ d) (h : n < 10 ^ d) :
    (natRepr n).length ≤ d := by
  unfold natRepr
  split
  · simpa [String.length]
  · simp only [String.length, List.length_reverse, List.length_map]
    exact digitsRev_length_le n n d (le_refl n) h

theorem digitsRev_ne_nil (f n : Nat) (hn : 0 < n) (hf : n ≤ f) : digitsRev f n ≠ [] := by
  match f, n with
  | 0, n => omega
  | f + 1, 0 => omega
  | f + 1, n + 1 => simp [digitsRev]

theorem natRepr_length_pos (n : Nat) : 1 ≤ (natRepr n).length := by
  unfold natRepr
  split
  · simp [String.length]
  · rename_i h
    simp only [String.length, List.length_reverse, List.length_map]
    have := digitsRev_ne_nil n n (Nat.pos_of_ne_zero h) (le_refl n)
    exact List.length_pos.mpr this

theorem randDigitStr_length (n : Nat) : ∀ g : RNG, ((randDigitStr n g).1).length = n := by
  induction n with
  | zero => intro g; rfl
  | succ n ih =>
    intro g
    show (String.mk (Nat.digitChar (g.stream g.pos % 10) ::
      (randDigitStr n (g.next).2).1.data)).length = n + 1
    have := ih (g.next).2
    simp only [String.length] at this ⊢
    simp [this]

theorem digitChar_isDigit (k : Nat) : (Nat.digitChar (k % 10)).isDigit = true := by
  have h : k % 10 < 10 := Nat.mod_lt _ (by norm_num)
  interval_cases h' : k % 10 <;> decide

theorem randDigitStr_digits (n : Nat) :
    ∀ (g : RNG) (c : Char), c ∈ ((randDigitStr n g).1).data → c.isDigit = true := by
  induction n with
  | zero => intro g c hc; simp [randDigitStr] at hc
  | succ n ih =>
    intro g c hc
    have hc' : c ∈ Nat.digitChar (g.stream g.pos % 10) :: (randDigitStr n (g.next).2).1.data := hc
    rcases List.mem_cons.mp hc' with h | h
    · subst h; exact digitChar_isDigit _
    · exact ih (g.next).2 c h

/- ### Basic lemmas about dict lookups -/

theorem dictGet_nil {α : Type} (k : String) : dictGet ([] : List (String × α)) k = none := rfl

theorem dictGet_append_self {α : Type} (m : List (String × α)) (k : String) (v : α) :
    dictGet (m ++ [(k, v)]) k = some v := by
  simp [dictGet, List.reverse_append]

theorem dictGet_append_ne {α : Type} (m : List (String × α)) (k k' : String) (v : α)
    (h : k' ≠ k) : dictGet (m ++ [(k', v)]) k = dictGet m k := by
  simp [dictGet, List.reverse_append, List.find?_cons, h]

theorem dictGet_mem {α : Type} (m : List (String × α)) (k : String) (v : α)
    (h : dictGet m k = some v) : (k, v) ∈ m := by
  unfold dictGet at h
  rcases hf : m.reverse.find? (fun p => p.1 = k) with _ | p
  · rw [hf] at h; simp at h
  · rw [hf] at h
    simp at h
    have hm := List.mem_of_find?_eq_some hf
    have hk := List.find?_some hf
    rw [List.mem_reverse] at hm
    simp at hk
    rcases p with ⟨k0, v0⟩
    simp at hk h
    rw [← hk, ← h]
    exact hm

theorem dictGet_key_mem {α : Type} (m : List (String × α)) (k : String) (v : α)
    (h : dictGet m k = some v) : k ∈ m.map Prod.fst := by
  have := dictGet_mem m k v h
  exact List.mem_map.mpr ⟨(k, v), this, rfl⟩

theorem dictGet_not_mem {α : Type} (m : List (String × α)) (k : String)
    (h : k ∉ m.map Prod.fst) : dictGet m k = none := by
  rcases hd : dictGet m k with _ | v
  · rfl
  · exact absurd (dictGet_key_mem m k v hd) h

/- ### The role suffix is always a character-level suffix of the api name -/

theorem dropWhile_eq_drop {α : Type} (p : α → Bool) :
    ∀ l : List α, l.dropWhile p = l.drop (l.takeWhile p).length := by
  intro l
  induction l with
  | nil => rfl
  | cons a t ih =>
    by_cases h : p a
    · simp [List.dropWhile_cons, List.takeWhile_cons, h, ih]
    · simp [List.dropWhile_cons, List.takeWhile_cons, h]

theorem suffixOf_drop (fdef : FieldDef) (comp : String) :
    ∃ m, (suffixOf fdef comp).data = (apiOf fdef).data.drop m := by
  unfold suffixOf strDrop
  by_cases h : strStarts (apiOf fdef) comp
  · simp only [h, if_pos]
    refine ⟨comp.length + (((apiOf fdef).data.drop comp.length).takeWhile
      (fun c => c = '_')).length, ?_⟩
    show ((apiOf fdef).data.drop comp.length).dropWhile (fun c => c = '_') = _
    rw [dropWhile_eq_drop, List.drop_drop]
  · refine ⟨(apiOf fdef).data.length, ?_⟩
    simp only [h, if_false]
    simp [List.drop_length]

theorem suffixOf_suffix (fdef : FieldDef) (comp : String) :
    (suffixOf fdef comp).data <:+ (apiOf fdef).data := by
  obtain ⟨m, hm⟩ := suffixOf_drop fdef comp
  rw [hm]
  exact List.drop_suffix m _

theorem suffixOf_ne_of_not_suffix (fdef : FieldDef) (comp : String) (t : String)
    (h : ¬ t.data <:+ (apiOf fdef).data) : suffixOf fdef comp ≠ t := by
  intro he
  exact h (he ▸ suffixOf_suffix fdef comp)

theorem suffix_of_suffix_le {s t l : List Char} (hs : s <:+ l) (ht : t <:+ l)
    (h : s.length ≤ t.length) : s <:+ t := by
  rw [← List.reverse_prefix] at hs ht ⊢
  exact List.prefix_of_prefix_length_le hs ht (by simpa using h)

theorem strEnds_suffix (s p : String) (h : strEnds s p = true) : p.data <:+ s.data := by
  unfold strEnds at h
  exact List.isSuffixOf_iff_suffix.mp h

/-- A name ending in `__pc` keeps its api name and cannot carry the
    Country/State/CountryCode/StateCode role for any group prefix. -/
theorem apiOf_of_pc (fdef : FieldDef) (h : strEnds fdef.name "__pc" = true) :
    apiOf fdef = fdef.name := by
  unfold apiOf
  have hpc := strEnds_suffix _ _ h
  by_cases hs : strEnds fdef.name "__s" = true
  · exfalso
    have hss := strEnds_suffix _ _ hs
    have := suffix_of_suffix_le hss hpc (by decide)
    revert this
    decide
  · simp [hs]

theorem suffixOf_pc_ne (fdef : FieldDef) (comp : String) (t : String)
    (h : strEnds fdef.name "__pc" = true) (hlen : 4 ≤ t.data.length)
    (hts : ¬ ("__pc".data <:+ t.data)) : suffixOf fdef comp ≠ t := by
  intro he
  have hsfx : t.data <:+ (apiOf fdef).data := he ▸ suffixOf_suffix fdef comp
  rw [apiOf_of_pc fdef h] at hsfx
  have hpc := strEnds_suffix _ _ h
  exact hts (suffix_of_suffix_le hpc hsfx (by simpa using hlen))

/- ### Branch lemmas for `genCell` -/

theorem genCell_skip (fields : List FieldDef) (skips : List String) (rt : String) (isP : Bool)
    (depm : List (String × List (List String))) (cmap : List (String × List CLPair))
    (smap : List (String × List (List CLPair))) (row : List (String × String))
    (csel : List (String × CLPair)) (g : RNG) (fdef : FieldDef)
    (h : ¬fdef.createable = true ∨ fdef.name ∈ skips) :
    genCell fields skips rt isP depm cmap smap row csel g fdef = ("", csel, g) := by
  simp only [genCell]
  rw [if_pos h]

theorem genCell_rtid (fields : List FieldDef) (skips : List String) (rt : String) (isP : Bool)
    (depm : List (String × List (List String))) (cmap : List (String × List CLPair))
    (smap : List (String × List (List CLPair))) (row : List (String × String))
    (csel : List (String × CLPair)) (g : RNG) (fdef : FieldDef)
    (hC : fdef.createable = true) (hS : fdef.name ∉ skips)
    (h : fdef.name = "RecordTypeId") :
    genCell fields skips rt isP depm cmap smap row csel g fdef = (rt, csel, g) := by
  simp only [genCell]
  rw [if_neg (by simp [hC, hS]), if_pos h]

theorem genCell_val_rtid_cases (fields : List FieldDef) (skips : List String) (rt : String)
    (isP : Bool) (depm : List (String × List (List String))) (cmap : List (String × List CLPair))
    (smap : List (String × List (List CLPair))) (row : List (String × String))
    (csel : List (String × CLPair)) (g : RNG) (fdef : FieldDef)
    (h : fdef.name = "RecordTypeId") :
    (genCell fields skips rt isP depm cmap smap row csel g fdef).1 = "" ∨
    (genCell fields skips rt isP depm cmap smap row csel g fdef).1 = rt := by
  by_cases h0 : ¬fdef.createable = true ∨ fdef.name ∈ skips
  · left
    rw [genCell_skip fields skips rt isP depm cmap smap row csel g fdef h0]
  · right
    push_neg at h0
    rw [genCell_rtid fields skips rt isP depm cmap smap row csel g fdef
      (by simpa using h0.1) h0.2 h]

theorem genCell_val_person_name (fields : List FieldDef) (skips : List String) (rt : String)
    (isP : Bool) (depm : List (String × List (List String))) (cmap : List (String × List CLPair))
    (smap : List (String × List (List CLPair))) (row : List (String × String))
    (csel : List (String × CLPair)) (g : RNG) (fdef : FieldDef)
    (hp : isP = true) (hname : fdef.name = "Name") :
    (genCell fields skips rt isP depm cmap smap row csel g fdef).1 = "" := by
  by_cases h0 : ¬fdef.createable = true ∨ fdef.name ∈ skips
  · rw [genCell_skip fields skips rt isP depm cmap smap row csel g fdef h0]
  · simp only [genCell]
    rw [if_neg h0, if_neg (by rw [hname]; decide),
      if_neg (show ¬(strStarts fdef.name "Person" = true ∧ ¬isP = true) by
        rw [hname, hp]; decide),
      if_neg (by rw [hname]; decide), if_pos hname, if_pos hp]

theorem genCell_val_business_empty (fields : List FieldDef) (skips : List String) (rt : String)
    (isP : Bool) (depm : List (String × List (List String))) (cmap : List (String × List CLPair))
    (smap : List (String × List (List CLPair))) (row : List (String × String))
    (csel : List (String × CLPair)) (g : RNG) (fdef : FieldDef)
    (hp : isP = false) (hname : isPersonOnlyName fdef.name) :
    (genCell fields skips rt isP depm cmap smap row csel g fdef).1 = "" := by
  by_cases h0 : ¬fdef.createable = true ∨ fdef.name ∈ skips
  · rw [genCell_skip fields skips rt isP depm cmap smap row csel g fdef h0]
  · rcases hname with h | h | h | h | h
    · simp only [genCell]
      rw [if_neg h0, if_neg (by rw [h]; decide), if_neg (by rw [h, hp]; decide),
        if_neg (by rw [h]; decide), if_neg (by rw [h]; decide), if_pos h,
        if_neg (by rw [hp]; decide)]
    · simp only [genCell]
      rw [if_neg h0, if_neg (by rw [h]; decide), if_neg (by rw [h, hp]; decide),
        if_neg (by rw [h]; decide), if_neg (by rw [h]; decide), if_neg (by rw [h]; decide),
        if_pos h, if_neg (by rw [hp]; decide)]
    · simp only [genCell]
      rw [if_neg h0, if_neg (by rw [h]; decide), if_neg (by rw [h, hp]; decide),
        if_neg (by rw [h]; decide), if_neg (by rw [h]; decide), if_neg (by rw [h]; decide),
        if_neg (by rw [h]; decide), if_pos h, if_neg (by rw [hp]; decide)]
    · by_cases hr : fdef.name = "RecordTypeId"
      · rw [hr] at h
        exact absurd h (by decide)
      · simp only [genCell]
        rw [if_neg h0, if_neg hr, if_pos (by rw [h, hp]; decide)]
    · by_cases hr : fdef.name = "RecordTypeId"
      · rw [hr] at h
        exact absurd h (by decide)
      · by_cases hpp : strStarts fdef.name "Person" = true
        · simp only [genCell]
          rw [if_neg h0, if_neg hr, if_pos (by rw [hpp, hp]; decide)]
        · simp only [genCell]
          rw [if_neg h0, if_neg hr, if_neg (by rw [hp]; simp [hpp]), if_pos h,
            if_neg (by rw [hp]; decide)]

theorem genCell_val_person_ten (fields : List FieldDef) (skips : List String) (rt : String)
    (isP : Bool) (depm : List (String × List (List String))) (cmap : List (String × List CLPair))
    (smap : List (String × List (List CLPair))) (row : List (String × String))
    (csel : List (String × CLPair)) (g : RNG) (fdef : FieldDef)
    (hp : isP = true) (hC : fdef.createable = true) (hS : fdef.name ∉ skips)
    (hname : fdef.name = "LastName" ∨ fdef.name = "FirstName" ∨
      strEnds fdef.name "__pc" = true) :
    (genCell fields skips rt isP depm cmap smap row csel g fdef).1 =
      (random_japanese 10 g).1 := by
  have h0 : ¬(¬fdef.createable = true ∨ fdef.name ∈ skips) := by simp [hC, hS]
  rcases hname with h | h | h
  · simp only [genCell]
    rw [if_neg h0, if_neg (by rw [h]; decide), if_neg (by rw [h, hp]; decide),
      if_neg (by rw [h]; decide), if_neg (by rw [h]; decide), if_pos h, if_pos hp]
  · simp only [genCell]
    rw [if_neg h0, if_neg (by rw [h]; decide), if_neg (by rw [h, hp]; decide),
      if_neg (by rw [h]; decide), if_neg (by rw [h]; decide), if_neg (by rw [h]; decide),
      if_pos h, if_pos hp]
  · have hr : fdef.name ≠ "RecordTypeId" := by
      intro he
      rw [he] at h
      exact absurd h (by decide)
    simp only [genCell]
    rw [if_neg h0, if_neg hr,
      if_neg (show ¬(strStarts fdef.name "Person" = true ∧ ¬isP = true) by
        rw [hp]; simp),
      if_pos h, if_pos hp]

/- ### Folding the per-field step over the whole field list -/

theorem genField_row (fields : List FieldDef) (skips : List String) (rt : String) (isP : Bool)
    (depm : List (String × List (List String))) (cmap : List (String × List CLPair))
    (smap : List (String × List (List CLPair))) (st : RowState) (fdef : FieldDef) :
    (genField fields skips rt isP depm cmap smap st fdef).row =
      st.row ++ [(fdef.name, (genCell fields skips rt isP depm cmap smap
        st.row st.csel st.g fdef).1)] := rfl

theorem foldl_row_entries (fields : List FieldDef) (skips : List String) (rt : String)
    (isP : Bool) (depm : List (String × List (List String)))
    (cmap : List (String × List CLPair)) (smap : List (String × List (List CLPair)))
    (P : String × String → Prop)
    (hstep : ∀ (row : List (String × String)) (csel : List (String × CLPair)) (g : RNG)
      (fdef : FieldDef),
      P (fdef.name, (genCell fields skips rt isP depm cmap smap row csel g fdef).1)) :
    ∀ (fs : List FieldDef) (st : RowState), (∀ e ∈ st.row, P e) →
      ∀ e ∈ (fs.foldl (genField fields skips rt isP depm cmap smap) st).row, P e := by
  intro fs
  induction fs with
  | nil => intro st h e he; exact h e he
  | cons f tl ih =>
    intro st h e he
    refine ih (genField fields skips rt isP depm cmap smap st f) ?_ e he
    intro e' he'
    rw [genField_row] at he'
    rcases List.mem_append.mp he' with h1 | h1
    · exact h e' h1
    · rw [List.mem_singleton.mp h1]
      exact hstep st.row st.csel st.g f

theorem genRow_row_eq (meta : Describe) (skips : List String) (p? : Option String) (g : RNG) :
    (genRow meta skips p? g).1 =
      ((filteredFields meta).foldl
        (genField (filteredFields meta) skips (pickRT meta g).1
          (personFlag meta p? (pickRT meta g).1)
          (dep_map (filteredFields meta))
          (buildCompoundMaps (filteredFields meta)).1
          (buildCompoundMaps (filteredFields meta)).2)
        ⟨[], [], (pickRT meta g).2⟩).row := rfl

/- ### C1: person/business exclusivity -/

/-- C1: in a person-variant row every cell of the Name field is emitted
    empty; in a business-variant row every person-only cell (LastName,
    FirstName, Salutation, Person-prefixed, `__pc`-suffixed) is emitted
    empty; hence the two populations are never simultaneously non-empty. -/
theorem sfC1_person_business_exclusive (meta : Describe) (skips : List String)
    (p? : Option String) (g : RNG) :
    (personFlag meta p? (pickRT meta g).1 = true →
      ∀ e ∈ (genRow meta skips p? g).1, e.1 = "Name" → e.2 = "") ∧
    (personFlag meta p? (pickRT meta g).1 = false →
      ∀ e ∈ (genRow meta skips p? g).1, isPersonOnlyName e.1 → e.2 = "") ∧
    ((∀ e ∈ (genRow meta skips p? g).1, isPersonOnlyName e.1 → e.2 = "") ∨
      (∀ e ∈ (genRow meta skips p? g).1, e.1 = "Name" → e.2 = "")) := by
  have hperson : personFlag meta p? (pickRT meta g).1 = true →
      ∀ e ∈ (genRow meta skips p? g).1, e.1 = "Name" → e.2 = "" := by
    intro hp e he
    rw [genRow_row_eq] at he
    refine foldl_row_entries _ _ _ _ _ _ _ (fun e => e.1 = "Name" → e.2 = "")
      ?_ _ _ (by intro e' he'; simp at he') e he
    intro row csel g' fdef hn
    exact genCell_val_person_name _ _ _ _ _ _ _ _ _ _ _ hp hn
  have hbusiness : personFlag meta p? (pickRT meta g).1 = false →
      ∀ e ∈ (genRow meta skips p? g).1, isPersonOnlyName e.1 → e.2 = "" := by
    intro hp e he
    rw [genRow_row_eq] at he
    refine foldl_row_entries _ _ _ _ _ _ _ (fun e => isPersonOnlyName e.1 → e.2 = "")
      ?_ _ _ (by intro e' he'; simp at he') e he
    intro row csel g' fdef hn
    exact genCell_val_business_empty _ _ _ _ _ _ _ _ _ _ _ hp hn
  refine ⟨hperson, hbusiness, ?_⟩
  rcases h : personFlag meta p? (pickRT meta g).1 with _ | _
  · left; exact hbusiness h
  · right; exact hperson h

theorem sfC1_person_business_exclusive_witness :
    personFlag metaPerson (some "PersonRT") (pickRT metaPerson gZero).1 = true ∧
    ("Name", "") ∈ (genRow metaPerson [] (some "PersonRT") gZero).1 ∧
    (("Name", "") : String × String).2 = "" := by
  refine ⟨by decide, by decide, ?_⟩
  exact (sfC1_person_business_exclusive metaPerson [] (some "PersonRT") gZero).1
    (by decide) ("Name", "") (by decide) rfl

/- ### C8: record-type selection -/

/-- C8: the selected record type is drawn from the eligible ids (active and
    name outside the exclusion set) and is the empty string when none
    exist; a non-empty RecordTypeId cell always holds an eligible id. -/
theorem sfC8_record_type (meta : Describe) (skips : List String) (p? : Option String)
    (g : RNG) :
    (all_rts meta = [] → (pickRT meta g).1 = "") ∧
    (all_rts meta ≠ [] → (pickRT meta g).1 ∈ all_rts meta) ∧
    (∀ e ∈ (genRow meta skips p? g).1, e.1 = "RecordTypeId" → e.2 ≠ "" →
      ∃ rti ∈ meta.recordTypeInfos, rti.active = true ∧
        (∀ n, rti.name? = some n → n ∉ EXCLUDE_RT_NAMES) ∧ e.2 = rti.recordTypeId) := by
  have h1 : all_rts meta = [] → (pickRT meta g).1 = "" := by
    intro h
    unfold pickRT
    rw [if_neg (by simp [h])]
  have h2 : all_rts meta ≠ [] → (pickRT meta g).1 ∈ all_rts meta := by
    intro h
    unfold pickRT
    rw [if_pos h]
    exact randChoice_mem _ _ _ h
  refine ⟨h1, h2, ?_⟩
  intro e he hrt hne
  have hcell : e.2 = "" ∨ e.2 = (pickRT meta g).1 := by
    rw [genRow_row_eq] at he
    have := foldl_row_entries _ _ _ _ _ _ _
      (fun e => e.1 = "RecordTypeId" → e.2 = "" ∨ e.2 = (pickRT meta g).1)
      (fun row csel g' fdef hn =>
        genCell_val_rtid_cases _ _ _ _ _ _ _ _ _ _ _ hn)
      _ _ (by intro e' he'; simp at he') e he
    exact this hrt
  rcases hcell with hc | hc
  · exact absurd hc hne
  · by_cases hall : all_rts meta = []
    · rw [h1 hall] at hc
      exact absurd hc hne
    · have hmem : e.2 ∈ all_rts meta := hc ▸ h2 hall
      unfold all_rts at hmem
      obtain ⟨rti, hrti, hid⟩ := List.mem_map.mp hmem
      unfold rtinfos at hrti
      have hfil := List.mem_filter.mp hrti
      have helig := hfil.2
      unfold eligibleRT at helig
      rw [Bool.and_eq_true] at helig
      refine ⟨rti, hfil.1, helig.1, ?_, hid.symm⟩
      intro n hn
      have := helig.2
      rw [hn] at this
      exact of_decide_eq_true this

theorem sfC8_record_type_witness :
    ("RecordTypeId", "rt1") ∈ (genRow metaPerson [] (some "PersonRT") gZero).1 ∧
    (∃ rti ∈ metaPerson.recordTypeInfos, rti.active = true ∧
      (∀ n, rti.name? = some n → n ∉ EXCLUDE_RT_NAMES) ∧
      (("RecordTypeId", "rt1") : String × String).2 = rti.recordTypeId) := by
  refine ⟨by decide, ?_⟩
  exact (sfC8_record_type metaPerson [] (some "PersonRT") gZero).2.2
    ("RecordTypeId", "rt1") (by decide) rfl (by decide)

/- ### C10: person identity fields are fixed-length random strings -/

/-- C10: in a person-variant row, a createable, non-skipped field named
    LastName or FirstName or ending in `__pc` always receives a random
    string of exactly 10 characters — non-empty regardless of the field's
    declared type, length or nillable flag. -/
theorem sfC10_person_identity_ten (fields : List FieldDef) (skips : List String)
    (rt : String) (isP : Bool) (depm : List (String × List (List String)))
    (cmap : List (String × List CLPair)) (smap : List (String × List (List CLPair)))
    (row : List (String × String)) (csel : List (String × CLPair)) (g : RNG)
    (fdef : FieldDef) (hp : isP = true) (hC : fdef.createable = true)
    (hS : fdef.name ∉ skips)
    (hname : fdef.name = "LastName" ∨ fdef.name = "FirstName" ∨
      strEnds fdef.name "__pc" = true) :
    ((genCell fields skips rt isP depm cmap smap row csel g fdef).1).length = 10 ∧
    (genCell fields skips rt isP depm cmap smap row csel g fdef).1 ≠ "" := by
  rw [genCell_val_person_ten fields skips rt isP depm cmap smap row csel g fdef
    hp hC hS hname]
  exact ⟨random_japanese_length 10 g, random_japanese_ne_empty 10 g (by norm_num)⟩

theorem sfC10_person_identity_ten_witness :
    ((genCell (filteredFields metaPerson) [] "rt1" true [] [] [] [] [] gZero
      fLastName).1).length = 10 ∧
    (genCell (filteredFields metaPerson) [] "rt1" true [] [] [] [] [] gZero
      fLastName).1 ≠ "" :=
  sfC10_person_identity_ten (filteredFields metaPerson) [] "rt1" true [] [] [] [] []
    gZero fLastName rfl (by decide) (by decide) (Or.inl (by decide))

/- ### C9: StateCode with no recorded country selection -/

theorem findIdx?_none_of_false {α : Type} (p : α → Bool) (h : ∀ a, p a = false) :
    ∀ l : List α, l.findIdx? p = none := by
  intro l
  induction l with
  | nil => rfl
  | cons a t ih => simp [List.findIdx?_cons, h a, ih]

/-- C9: when a StateCode field is resolved with no recorded country
    selection for its group, the country index silently defaults to 0 and
    the state is drawn from the table entry for index 0 (empty when that
    entry is empty or absent); consequently a concrete schema whose
    CountryCode field is skipped yields a row with a non-empty StateCode
    cell and an empty CountryCode cell. -/
theorem sfC9_state_default_index :
    (∀ (fields : List FieldDef) (skips : List String) (rt : String) (isP : Bool)
      (depm : List (String × List (List String))) (cmap : List (String × List CLPair))
      (smap : List (String × List (List CLPair))) (row : List (String × String))
      (csel : List (String × CLPair)) (g : RNG) (fdef : FieldDef),
      fdef.createable = true → fdef.name ∉ skips →
      (strStarts fdef.name "Person" = true → isP = true) →
      compOf fdef ≠ "" → suffixOf fdef (compOf fdef) = "StateCode" →
      dictGet csel (compOf fdef) = none →
      ((((dictGet smap (compOf fdef)).getD []).getD 0 [] ≠ [] →
        ∃ pr ∈ ((dictGet smap (compOf fdef)).getD []).getD 0 [],
          (genCell fields skips rt isP depm cmap smap row csel g fdef).1 = pr.value) ∧
       (((dictGet smap (compOf fdef)).getD []).getD 0 [] = [] →
        (genCell fields skips rt isP depm cmap smap row csel g fdef).1 = ""))) ∧
    (dictGet (genRow metaCompound ["TestCountryCode"] none gZero).1 "TestStateCode" =
        some "13" ∧
      dictGet (genRow metaCompound ["TestCountryCode"] none gZero).1 "TestCountryCode" =
        some "" ∧
      ("13" : String) ≠ "") := by
  constructor
  · intro fields skips rt isP depm cmap smap row csel g fdef hC hS hPer hcomp hsfx hsel
    have h0 : ¬(¬fdef.createable = true ∨ fdef.name ∈ skips) := by simp [hC, hS]
    have hrt : fdef.name ≠ "RecordTypeId" := by
      intro he
      have : apiOf fdef = "RecordTypeId" := by unfold apiOf; rw [he]; decide
      exact suffixOf_ne_of_not_suffix fdef (compOf fdef) "StateCode"
        (by rw [this]; decide) hsfx
    have hpc : strEnds fdef.name "__pc" = false := by
      rcases hb : strEnds fdef.name "__pc" with _ | _
      · rfl
      · exact absurd hsfx (suffixOf_pc_ne fdef (compOf fdef) "StateCode" hb
          (by decide) (by decide))
    have hnm : fdef.name ≠ "Name" := by
      intro he
      have : apiOf fdef = "Name" := by unfold apiOf; rw [he]; decide
      exact suffixOf_ne_of_not_suffix fdef (compOf fdef) "StateCode"
        (by rw [this]; decide) hsfx
    have hln : fdef.name ≠ "LastName" := by
      intro he
      have : apiOf fdef = "LastName" := by unfold apiOf; rw [he]; decide
      exact suffixOf_ne_of_not_suffix fdef (compOf fdef) "StateCode"
        (by rw [this]; decide) hsfx
    have hfn : fdef.name ≠ "FirstName" := by
      intro he
      have : apiOf fdef = "FirstName" := by unfold apiOf; rw [he]; decide
      exact suffixOf_ne_of_not_suffix fdef (compOf fdef) "StateCode"
        (by rw [this]; decide) hsfx
    have hsal : fdef.name ≠ "Salutation" := by
      intro he
      have : apiOf fdef = "Salutation" := by unfold apiOf; rw [he]; decide
      exact suffixOf_ne_of_not_suffix fdef (compOf fdef) "StateCode"
        (by rw [this]; decide) hsfx
    have hidx : (((dictGet cmap (compOf fdef)).getD []).findIdx?
        (fun e => some e = dictGet csel (compOf fdef))).getD 0 = 0 := by
      rw [hsel]
      rw [findIdx?_none_of_false _ (fun a => by simp) _]
      rfl
    simp only [genCell]
    rw [if_neg h0, if_neg hrt,
      if_neg (show ¬(strStarts fdef.name "Person" = true ∧ ¬isP = true) by
        intro hc; exact hc.2 (hPer hc.1)),
      if_neg (by simp [hpc]), if_neg hnm, if_neg hln, if_neg hfn, if_neg hsal,
      if_neg (show ¬(¬compOf fdef = "" ∧ suffixOf fdef (compOf fdef) = "CountryCode") by
        intro hc; rw [hsfx] at hc; exact absurd hc.2 (by decide)),
      if_neg (show ¬(¬compOf fdef = "" ∧ suffixOf fdef (compOf fdef) = "Country") by
        intro hc; rw [hsfx] at hc; exact absurd hc.2 (by decide)),
      if_pos (show ¬compOf fdef = "" ∧ suffixOf fdef (compOf fdef) = "StateCode" from
        ⟨hcomp, hsfx⟩),
      hidx]
    constructor
    · intro hne
      rw [if_pos hne]
      exact ⟨(randChoice (((dictGet smap (compOf fdef)).getD []).getD 0 []) ⟨"", ""⟩ g).1,
        randChoice_mem _ _ _ hne, rfl⟩
    · intro hemp
      rw [if_neg (fun hc => hc hemp)]
  · exact ⟨by decide, by decide, by decide⟩

theorem sfC9_state_default_index_witness :
    ∃ pr ∈ (([[(⟨"13", "Tokyo"⟩ : CLPair)]] : List (List CLPair)).getD 0 []),
      (genCell [] [] "" false [] [("Test", [⟨"JP", "Japan"⟩])]
        [("Test", [[⟨"13", "Tokyo"⟩]])] [] [] gZero fTestSC).1 = pr.value := by
  have h := (sfC9_state_default_index.1 [] [] "" false []
    [("Test", [⟨"JP", "Japan"⟩])] [("Test", [[⟨"13", "Tokyo"⟩]])] [] [] gZero fTestSC
    (by decide) (by decide) (by decide) (by decide) (by decide) (by decide)).1 (by decide)
  exact h

/- ### C4: dependent picklists -/

/-- C4 counterexample: a dependent picklist that precedes its controller in
    field order.  The controller resolves in the schema (so the claim's
    fallback clause does not apply), the controller's emitted value "x" sits
    at index 0, the allowed set for index 0 is ["a"], yet the dependent cell
    holds the non-empty value "b". -/
theorem sfC4_counterexample :
    truthy fDepBefore.controllerName? = some "CtrlField" ∧
    fCtrlAfter ∈ filteredFields metaDepBefore ∧
    fCtrlAfter.name = "CtrlField" ∧
    dictGet (genRow metaDepBefore [] none gOne).1 "DepField" = some "b" ∧
    dictGet (genRow metaDepBefore [] none gOne).1 "CtrlField" = some "x" ∧
    ctrlVals (filteredFields metaDepBefore) "CtrlField" = ["x", "y"] ∧
    List.indexOf "x" (ctrlVals (filteredFields metaDepBefore) "CtrlField") = 0 ∧
    ((dictGet (dep_map (filteredFields metaDepBefore)) "DepField").getD []).getD 0 []
      = ["a"] ∧
    ("b" : String) ∉ (["a"] : List String) ∧ ("b" : String) ≠ "" := by
  refine ⟨by decide, by decide, by decide, by decide, by decide, by decide, by decide,
    by decide, by decide, by decide⟩

/-- C4 amended: a dependent field's cell is resolved against the controller's
    cell only when that cell has already been emitted; a non-empty value then
    belongs to the allowed set of the resolved controller index (position of
    the controller's emitted value among its declared options, defaulting to
    index 0).  When no controller cell has been emitted yet — unresolvable
    name or controller later in field order — the field falls back to plain
    type dispatch. -/
theorem sfC4_dependent_amended :
    ∀ (fields : List FieldDef) (skips : List String) (rt : String) (isP : Bool)
      (cmap : List (String × List CLPair)) (smap : List (String × List (List CLPair)))
      (row : List (String × String)) (csel : List (String × CLPair)) (g : RNG)
      (fdef : FieldDef) (ctrl : String),
    fdef.createable = true → fdef.name ∉ skips →
    fdef.name ≠ "RecordTypeId" → fdef.name ≠ "Name" → fdef.name ≠ "LastName" →
    fdef.name ≠ "FirstName" → fdef.name ≠ "Salutation" →
    (strStarts fdef.name "Person" = true → isP = true) →
    strEnds fdef.name "__pc" = false →
    ¬(compOf fdef ≠ "" ∧ suffixOf fdef (compOf fdef) = "CountryCode") →
    ¬(compOf fdef ≠ "" ∧ suffixOf fdef (compOf fdef) = "Country") →
    ¬(compOf fdef ≠ "" ∧ suffixOf fdef (compOf fdef) = "StateCode") →
    ¬(compOf fdef ≠ "" ∧ suffixOf fdef (compOf fdef) = "State") →
    ¬(compOf fdef ≠ "" ∧ suffixOf fdef (compOf fdef) = "City") →
    ¬(compOf fdef ≠ "" ∧ suffixOf fdef (compOf fdef) = "PostalCode") →
    ¬(compOf fdef ≠ "" ∧ suffixOf fdef (compOf fdef) = "Street") →
    suffixOf fdef (compOf fdef) ≠ "Latitude" →
    suffixOf fdef (compOf fdef) ≠ "Longitude" →
    truthy fdef.controllerName? = some ctrl →
    ((∀ rv, dictGet row ctrl = some rv →
       ((genCell fields skips rt isP (dep_map fields) cmap smap row csel g fdef).1 ≠ "" →
         (genCell fields skips rt isP (dep_map fields) cmap smap row csel g fdef).1 ∈
           ((dictGet (dep_map fields) fdef.name).getD []).getD
             (if rv ∈ ctrlVals fields ctrl then
               List.indexOf rv (ctrlVals fields ctrl) else 0) [])) ∧
     (dictGet row ctrl = none →
       (genCell fields skips rt isP (dep_map fields) cmap smap row csel g fdef).1 =
         (genByType fdef g).1)) := by
  intro fields skips rt isP cmap smap row csel g fdef ctrl hC hS hrt hnm hln hfn hsal
    hPer hpc hcc hco hsc hst hci hpo hstr hlat hlon hctrl
  have h0 : ¬(¬fdef.createable = true ∨ fdef.name ∈ skips) := by simp [hC, hS]
  have hgen : genCell fields skips rt isP (dep_map fields) cmap smap row csel g fdef =
      (match dictGet row ctrl with
        | some rv =>
          if ((dictGet (dep_map fields) fdef.name).getD []).getD
              (if rv ∈ ctrlVals fields ctrl then
                List.indexOf rv (ctrlVals fields ctrl) else 0) [] ≠ [] then
            ((randChoice (((dictGet (dep_map fields) fdef.name).getD []).getD
              (if rv ∈ ctrlVals fields ctrl then
                List.indexOf rv (ctrlVals fields ctrl) else 0) []) "" g).1, csel,
             (randChoice (((dictGet (dep_map fields) fdef.name).getD []).getD
              (if rv ∈ ctrlVals fields ctrl then
                List.indexOf rv (ctrlVals fields ctrl) else 0) []) "" g).2)
          else ("", csel, g)
        | none => ((genByType fdef g).1, csel, (genByType fdef g).2)) := by
    simp only [genCell]
    rw [if_neg h0, if_neg hrt,
      if_neg (show ¬(strStarts fdef.name "Person" = true ∧ ¬isP = true) by
        intro hc; exact hc.2 (hPer hc.1)),
      if_neg (by simp [hpc]), if_neg hnm, if_neg hln, if_neg hfn, if_neg hsal,
      if_neg hcc, if_neg hco, if_neg hsc, if_neg hst, if_neg hci, if_neg hpo,
      if_neg hstr, if_neg hlat, if_neg hlon, hctrl]
  constructor
  · intro rv hrv hne
    rw [hgen, hrv] at hne ⊢
    dsimp only at hne ⊢
    by_cases hopts : ((dictGet (dep_map fields) fdef.name).getD []).getD
        (if rv ∈ ctrlVals fields ctrl then
          List.indexOf rv (ctrlVals fields ctrl) else 0) [] ≠ []
    · rw [if_pos hopts] at hne ⊢
      exact randChoice_mem _ _ _ hopts
    · rw [if_neg hopts] at hne
      exact absurd rfl hne
  · intro hrv
    rw [hgen, hrv]

theorem sfC4_dependent_amended_witness :
    (genCell [fCtrlAfter, fDepBefore] [] "" false (dep_map [fCtrlAfter, fDepBefore]) [] []
      [("CtrlField", "x")] [] gZero fDepBefore).1 = "a" ∧
    "a" ∈ ((dictGet (dep_map [fCtrlAfter, fDepBefore]) "DepField").getD []).getD
      (if "x" ∈ ctrlVals [fCtrlAfter, fDepBefore] "CtrlField" then
        List.indexOf "x" (ctrlVals [fCtrlAfter, fDepBefore] "CtrlField") else 0) [] := by
  have hv : (genCell [fCtrlAfter, fDepBefore] [] "" false (dep_map [fCtrlAfter, fDepBefore])
      [] [] [("CtrlField", "x")] [] gZero fDepBefore).1 = "a" := by decide
  have h := (sfC4_dependent_amended [fCtrlAfter, fDepBefore] [] "" false [] []
    [("CtrlField", "x")] [] gZero fDepBefore "CtrlField" (by decide) (by decide)
    (by decide) (by decide) (by decide) (by decide) (by decide) (by decide) (by decide)
    (by decide) (by decide) (by decide) (by decide) (by decide) (by decide) (by decide)
    (by decide) (by decide) (by decide)).1 "x" (by decide) (by decide)
  exact ⟨hv, hv ▸ h⟩

/- ### C3: the bitmask predicate -/

/-- C3: `valid_for` is total and boolean-valued; it reports bit `idx` of the
    decoded mask, MSB-first within each byte (byte `idx / 8`, bit
    `7 - idx % 8`); a failed base64 decode collapses to the empty byte string,
    on which every index — like any index past the decoded length — yields 0. -/
theorem sfC3_bitmask :
    (∀ (vb : List Nat) (idx : Nat), valid_for vb idx = 0 ∨ valid_for vb idx = 1) ∧
    (∀ (vb : List Nat) (idx : Nat),
      valid_for vb idx = 1 ↔
        idx / 8 < vb.length ∧ Nat.testBit (vb.getD (idx / 8) 0) (7 - idx % 8) = true) ∧
    (∀ v : String, b64decode v = none → decode_valid_for v = []) ∧
    (∀ (v : String) (idx : Nat), b64decode v = none →
      valid_for (decode_valid_for v) idx = 0) ∧
    (∀ (vb : List Nat) (idx : Nat), vb.length ≤ idx / 8 → valid_for vb idx = 0) := by
  have hbit : ∀ (x s : Nat), x >>> s &&& 1 = x / 2 ^ s % 2 := by
    intro x s
    rw [Nat.and_one_is_mod, Nat.shiftRight_eq_div_pow]
  refine ⟨?_, ?_, ?_, ?_, ?_⟩
  · intro vb idx
    unfold valid_for
    split
    · rw [hbit]
      exact Nat.mod_two_eq_zero_or_one _
    · left; rfl
  · intro vb idx
    unfold valid_for
    by_cases h : idx / 8 < vb.length
    · have hne : vb ≠ [] := by
        intro he; subst he; simp at h
      rw [if_pos ⟨hne, h⟩, hbit]
      constructor
      · intro hv
        refine ⟨h, ?_⟩
        rw [Nat.testBit_to_div_mod]
        exact decide_eq_true hv
      · intro hc
        have hv := hc.2
        rw [Nat.testBit_to_div_mod] at hv
        exact of_decide_eq_true hv
    · rw [if_neg (by tauto)]
      constructor
      · intro hv; exact absurd hv (by norm_num)
      · intro ⟨hc, _⟩; exact absurd hc h
  · intro v h
    unfold decode_valid_for
    rw [h]
    rfl
  · intro v idx h
    unfold decode_valid_for
    rw [h]
    rfl
  · intro vb idx h
    unfold valid_for
    rw [if_neg (fun hc => absurd hc.2 (by omega))]

/- ### C2: behaviour when the filtered field list is empty -/

theorem genRow_of_no_fields (meta : Describe) (skips : List String) (p? : Option String)
    (g : RNG) (h : filteredFields meta = []) : (genRow meta skips p? g).1 = [] := by
  unfold genRow
  rw [h]
  rfl

/-- C2 counterexample: a schema whose only field is calculated filters to an
    empty field list, yet one requested row is still produced (as an empty
    row) — generation does not abort. -/
theorem sfC2_counterexample :
    filteredFields metaAllCalc = [] ∧
    genRows metaAllCalc [] none 1 gZero = [[]] ∧
    genRows metaAllCalc [] none 1 gZero ≠ [] := by
  refine ⟨by decide, by decide, by decide⟩

/-- C2 amended: if the field list is empty after load-time filtering, no
    error is raised; the header is empty and exactly the requested number of
    rows is emitted, each row empty. -/
theorem sfC2_empty_fields_amended :
    ∀ (meta : Describe) (rows : Nat) (skips : List String) (p? : Option String) (g : RNG),
    filteredFields meta = [] →
    header meta = [] ∧ (genRows meta skips p? rows g).length = rows ∧
      ∀ r ∈ genRows meta skips p? rows g, r = [] := by
  intro meta rows skips p? g h
  refine ⟨by simp [header, h], ?_, ?_⟩
  · induction rows generalizing g with
    | zero => rfl
    | succ n ih => simp [genRows, ih]
  · induction rows generalizing g with
    | zero => intro r hr; simp [genRows] at hr
    | succ n ih =>
      intro r hr
      rcases List.mem_cons.mp hr with h1 | h1
      · rw [h1]; exact genRow_of_no_fields meta skips p? g h
      · exact ih _ r h1

theorem sfC2_empty_fields_amended_witness :
    header metaAllCalc = [] ∧ (genRows metaAllCalc [] none 2 gZero).length = 2 := by
  have := sfC2_empty_fields_amended metaAllCalc 2 [] none gZero (by decide)
  exact ⟨this.1, this.2.1⟩

/- ### C6: text field length bounds -/

/-- C6: a string/textarea cell's length lies between the nillability minimum
    and the declared maximum; an undeclared maximum resolves to the fixed
    fallback 0, and a zero maximum yields the empty string. -/
theorem sfC6_text_length :
    ∀ (fdef : FieldDef) (g : RNG),
    (strLower ((fdef.type?).getD "") = "string" ∨
      strLower ((fdef.type?).getD "") = "textarea") →
    ((0 < pyOrNat fdef.length? 0 →
        (if fdef.nillable then 0 else 1) ≤ ((genByType fdef g).1).length ∧
        ((genByType fdef g).1).length ≤ pyOrNat fdef.length? 0) ∧
      (pyOrNat fdef.length? 0 = 0 → (genByType fdef g).1 = "") ∧
      (fdef.length? = none → pyOrNat fdef.length? 0 = 0)) := by
  intro fdef g ht
  have hgen : genByType fdef g =
      (if 0 < pyOrNat fdef.length? 0 then
        random_japanese (randint (if fdef.nillable then 0 else 1) (pyOrNat fdef.length? 0) g).1
          (randint (if fdef.nillable then 0 else 1) (pyOrNat fdef.length? 0) g).2
      else random_japanese 0 g) := by
    unfold genByType
    rw [if_pos ht]
  refine ⟨?_, ?_, ?_⟩
  · intro hpos
    rw [hgen, if_pos hpos]
    have hminmax : (if fdef.nillable then 0 else 1) ≤ pyOrNat fdef.length? 0 := by
      split <;> omega
    have hb := randint_bounds (if fdef.nillable then 0 else 1) (pyOrNat fdef.length? 0) g hminmax
    rw [random_japanese_length]
    exact hb
  · intro hz
    rw [hgen, if_neg (by omega)]
    rfl
  · intro hn
    rw [hn]
    rfl

theorem sfC6_text_length_witness :
    (1 ≤ ((genByType fPlainText gZero).1).length ∧
      ((genByType fPlainText gZero).1).length ≤ 5) ∧
    pyOrNat fPlainText.length? 0 = 5 ∧ fPlainText.nillable = false := by
  have h := (sfC6_text_length fPlainText gZero (Or.inl (by decide))).1 (by decide)
  exact ⟨h, by decide, by decide⟩

/- ### C7: numeric field shape -/

/-- C7 counterexample: a double field with precision 3 and scale 0 can
    generate "0", whose integer part has 1 digit, not max(1, 3-0) = 3. -/
theorem sfC7_counterexample :
    strLower ((fPlainNumberNoScale.type?).getD "") ∈ NUMERIC_TYPES ∧
    pyOrNat fPlainNumberNoScale.precision? 0 = 3 ∧
    pyOrNat fPlainNumberNoScale.scale? 0 = 0 ∧
    (genByType fPlainNumberNoScale gZero).1 = "0" ∧
    ((genByType fPlainNumberNoScale gZero).1).length ≠ max 1 (3 - 0) := by
  refine ⟨by decide, by decide, by decide, by decide, by decide⟩

/-- C7 amended: for every numeric-family field the value is rendered from a
    uniform integer below `10 ^ max 1 (precision - scale)` — so its integer
    part has between 1 and `max 1 (precision - scale)` digits — followed,
    exactly when scale > 0, by a decimal point and `scale` random digits;
    this shape holds whether or not precision > 0. -/
theorem sfC7_numeric_amended :
    ∀ (fdef : FieldDef) (g : RNG),
    strLower ((fdef.type?).getD "") ∈ NUMERIC_TYPES →
    ∃ i : Nat,
      i < 10 ^ max 1 (pyOrNat fdef.precision? 0 - pyOrNat fdef.scale? 0) ∧
      1 ≤ (natRepr i).length ∧
      (natRepr i).length ≤ max 1 (pyOrNat fdef.precision? 0 - pyOrNat fdef.scale? 0) ∧
      (0 < pyOrNat fdef.scale? 0 →
        ∃ frac : String, frac.length = pyOrNat fdef.scale? 0 ∧
          (∀ c ∈ frac.data, c.isDigit = true) ∧
          (genByType fdef g).1 = natRepr i ++ "." ++ frac) ∧
      (pyOrNat fdef.scale? 0 = 0 → (genByType fdef g).1 = natRepr i) := by
  intro fdef g ht
  have hgen : genByType fdef g =
      random_number (pyOrNat fdef.precision? 0) (pyOrNat fdef.scale? 0) g := by
    simp only [NUMERIC_TYPES, List.mem_cons, List.not_mem_nil, or_false] at ht
    unfold genByType
    rcases ht with h | h | h | h | h <;> rw [h] <;> rfl
  set p := pyOrNat fdef.precision? 0
  set s := pyOrNat fdef.scale? 0
  set d := max 1 (p - s) with hd
  have hpow : 1 ≤ 10 ^ d := Nat.one_le_two_pow.trans (Nat.pow_le_pow_left (by norm_num) d)
  have hb := randint_bounds 0 (10 ^ d - 1) g (by omega)
  refine ⟨(randint 0 (10 ^ d - 1) g).1, by omega, natRepr_length_pos _, ?_, ?_, ?_⟩
  · exact natRepr_length_le _ d (le_max_left 1 _) (by omega)
  · intro hs
    refine ⟨(randDigitStr s (randint 0 (10 ^ d - 1) g).2).1,
      randDigitStr_length s _, randDigitStr_digits s _, ?_⟩
    rw [hgen]
    show (random_number p s g).1 = _
    simp only [random_number]
    rw [if_pos hs]
  · intro hs
    rw [hgen]
    show (random_number p s g).1 = _
    simp only [random_number]
    rw [if_neg (by omega)]

theorem sfC7_numeric_amended_witness :
    (genByType fPlainNumber gZero).1 = "0.00" ∧
    strLower ((fPlainNumber.type?).getD "") ∈ NUMERIC_TYPES := by
  have h := sfC7_numeric_amended fPlainNumber gZero (by decide)
  obtain ⟨i, hi, _, _, hfrac, _⟩ := h
  obtain ⟨frac, _, _, heq⟩ := hfrac (by decide)
  exact ⟨by decide, by decide⟩

theorem sfC3_bitmask_witness :
    valid_for (decode_valid_for "gA==") 0 = 1 ∧
    valid_for (decode_valid_for "gA==") 1 = 0 ∧
    b64decode "A" = none ∧
    valid_for (decode_valid_for "A") 0 = 0 ∧
    valid_for [128] 9 = 0 := by
  refine ⟨?_, ?_, ?_, ?_, ?_⟩
  · exact (sfC3_bitmask.2.1 (decode_valid_for "gA==") 0).mpr (by decide)
  · decide
  · decide
  · exact sfC3_bitmask.2.2.2.1 "A" 0 (by decide)
  · exact sfC3_bitmask.2.2.2.2 [128] 9 (by decide)

/- ### C5 infrastructure: where the compound tables come from -/

theorem getD_mem_of_mem {α : Type} (l : List (List α)) (i : Nat) (x : α)
    (h : x ∈ l.getD i []) : ∃ el ∈ l, x ∈ el := by
  rcases Nat.lt_or_ge i l.length with hi | hi
  · rw [List.getD_eq_getElem?_getD, List.getElem?_eq_getElem hi] at h
    exact ⟨l[i], List.getElem_mem hi, h⟩
  · rw [List.getD_eq_getElem?_getD, List.getElem?_eq_none (by omega)] at h
    simp at h

theorem clPairs_optionPair (f : FieldDef) (pr : CLPair)
    (h : pr ∈ clPairs f.picklistValues) : optionPair f pr := by
  unfold clPairs at h
  obtain ⟨o, ho, hmo⟩ := List.mem_filterMap.mp h
  refine ⟨o, ho, ?_⟩
  rcases hv : o.value? with _ | v <;> rcases hl : o.label? with _ | l <;>
    rw [hv, hl] at hmo
  · exact Option.noConfusion hmo
  · exact Option.noConfusion hmo
  · exact Option.noConfusion hmo
  · have h2 : some (⟨v, l⟩ : CLPair) = some pr := hmo
    rw [← Option.some.inj h2]
    exact ⟨rfl, rfl⟩

theorem stateOptsAt_optionPair (f : FieldDef) (idx : Nat) (pr : CLPair)
    (h : pr ∈ stateOptsAt f.picklistValues idx) : optionPair f pr := by
  unfold stateOptsAt at h
  obtain ⟨o, ho, hmo⟩ := List.mem_filterMap.mp h
  refine ⟨o, ho, ?_⟩
  split_ifs at hmo with hvf
  · rcases hv : o.value? with _ | v <;> rcases hl : o.label? with _ | l <;>
      rw [hv, hl] at hmo
    · exact Option.noConfusion hmo
    · exact Option.noConfusion hmo
    · exact Option.noConfusion hmo
    · have h2 : some (⟨v, l⟩ : CLPair) = some pr := hmo
      rw [← Option.some.inj h2]
      exact ⟨rfl, rfl⟩

theorem suffixOf_name_special (f : FieldDef) (comp : String)
    (h : f.name = "RecordTypeId" ∨ f.name = "Name" ∨ f.name = "LastName" ∨
      f.name = "FirstName" ∨ f.name = "Salutation") :
    suffixOf f comp ≠ "Country" ∧ suffixOf f comp ≠ "State" := by
  have hapi : apiOf f = f.name := by
    unfold apiOf
    rcases h with h | h | h | h | h <;> rw [h] <;> decide
  constructor <;> apply suffixOf_ne_of_not_suffix <;> rw [hapi] <;>
    rcases h with h | h | h | h | h <;> rw [h] <;> decide

theorem suffixOf_pc_not_cs (f : FieldDef) (comp : String)
    (h : strEnds f.name "__pc" = true) :
    suffixOf f comp ≠ "Country" ∧ suffixOf f comp ≠ "State" :=
  ⟨suffixOf_pc_ne f comp "Country" h (by decide) (by decide),
   suffixOf_pc_ne f comp "State" h (by decide) (by decide)⟩

theorem buildStep_fst (acc : List (String × List CLPair) × List (String × List (List CLPair)))
    (f : FieldDef) :
    (buildStep acc f).1 = acc.1 ∨
    (compOf f ≠ "" ∧ suffixOf f (compOf f) = "CountryCode" ∧
      (buildStep acc f).1 = acc.1 ++ [(compOf f, clPairs f.picklistValues)]) := by
  simp only [buildStep]
  split_ifs with h1 h2 h3
  · left; rfl
  · right; exact ⟨h1, h2, rfl⟩
  · left; rfl
  · left; rfl

theorem buildStep_snd (acc : List (String × List CLPair) × List (String × List (List CLPair)))
    (f : FieldDef) :
    (buildStep acc f).2 = acc.2 ∨
    (compOf f ≠ "" ∧ suffixOf f (compOf f) = "StateCode" ∧
      (buildStep acc f).2 = acc.2 ++ [(compOf f,
        (List.range ((dictGet acc.1 (compOf f)).getD []).length).map
          (stateOptsAt f.picklistValues))]) := by
  simp only [buildStep]
  split_ifs with h1 h2 h3
  · left; rfl
  · left; rfl
  · right; exact ⟨h1, h3, rfl⟩
  · left; rfl

theorem buildCM_cmap_entries :
    ∀ (fs : List FieldDef)
      (acc : List (String × List CLPair) × List (String × List (List CLPair)))
      (p : String × List CLPair), p ∈ (fs.foldl buildStep acc).1 →
      p ∈ acc.1 ∨ ∃ f ∈ fs, compOf f ≠ "" ∧ suffixOf f (compOf f) = "CountryCode" ∧
        p = (compOf f, clPairs f.picklistValues) := by
  intro fs
  induction fs with
  | nil => intro acc p hp; exact Or.inl hp
  | cons f tl ih =>
    intro acc p hp
    rcases ih (buildStep acc f) p hp with h | h
    · rcases buildStep_fst acc f with he | ⟨hc, hs, he⟩
      · rw [he] at h; exact Or.inl h
      · rw [he] at h
        rcases List.mem_append.mp h with h1 | h1
        · exact Or.inl h1
        · exact Or.inr ⟨f, List.mem_cons_self f tl, hc, hs, List.mem_singleton.mp h1⟩
    · obtain ⟨f', hf', rest⟩ := h
      exact Or.inr ⟨f', List.mem_cons_of_mem f hf', rest⟩

theorem buildCM_smap_entries :
    ∀ (fs : List FieldDef)
      (acc : List (String × List CLPair) × List (String × List (List CLPair)))
      (p : String × List (List CLPair)), p ∈ (fs.foldl buildStep acc).2 →
      p ∈ acc.2 ∨ ∃ f ∈ fs, compOf f ≠ "" ∧ suffixOf f (compOf f) = "StateCode" ∧
        p.1 = compOf f ∧
        ∀ (i : Nat) (pr : CLPair), pr ∈ p.2.getD i [] → optionPair f pr := by
  intro fs
  induction fs with
  | nil => intro acc p hp; exact Or.inl hp
  | cons f tl ih =>
    intro acc p hp
    rcases ih (buildStep acc f) p hp with h | h
    · rcases buildStep_snd acc f with he | ⟨hc, hs, he⟩
      · rw [he] at h; exact Or.inl h
      · rw [he] at h
        rcases List.mem_append.mp h with h1 | h1
        · exact Or.inl h1
        · rw [List.mem_singleton.mp h1]
          refine Or.inr ⟨f, List.mem_cons_self f tl, hc, hs, rfl, ?_⟩
          intro i pr hpr
          obtain ⟨el, hel, hprel⟩ := getD_mem_of_mem _ i pr hpr
          obtain ⟨idx, _, helidx⟩ := List.mem_map.mp hel
          rw [← helidx] at hprel
          exact stateOptsAt_optionPair f idx pr hprel
    · obtain ⟨f', hf', rest⟩ := h
      exact Or.inr ⟨f', List.mem_cons_of_mem f hf', rest⟩

/-- Complete case analysis of one `genCell` call, as seen by the compound
    invariant: either the selection state is untouched (with enough
    information about the value to rule out a Country/State label role), or
    the field played the CountryCode/Country/StateCode/State role. -/
theorem genCell_shape (fields : List FieldDef) (skips : List String) (rt : String)
    (isP : Bool) (depm : List (String × List (List String)))
    (cmap : List (String × List CLPair)) (smap : List (String × List (List CLPair)))
    (row : List (String × String)) (csel : List (String × CLPair)) (g : RNG)
    (f : FieldDef) :
    ((genCell fields skips rt isP depm cmap smap row csel g f).2.1 = csel ∧
      ((genCell fields skips rt isP depm cmap smap row csel g f).1 = "" ∨
        f.name = "RecordTypeId" ∨ strEnds f.name "__pc" = true ∨
        f.name = "Name" ∨ f.name = "LastName" ∨ f.name = "FirstName" ∨
        f.name = "Salutation" ∨
        (¬(compOf f ≠ "" ∧ suffixOf f (compOf f) = "Country") ∧
          ¬(compOf f ≠ "" ∧ suffixOf f (compOf f) = "State")))) ∨
    (compOf f ≠ "" ∧ suffixOf f (compOf f) = "CountryCode" ∧
      ∃ pr : CLPair, (pr ∈ (dictGet cmap (compOf f)).getD [] ∨ pr = ⟨"", ""⟩) ∧
        (genCell fields skips rt isP depm cmap smap row csel g f).1 = pr.value ∧
        (genCell fields skips rt isP depm cmap smap row csel g f).2.1 =
          csel ++ [(compOf f, pr)]) ∨
    (compOf f ≠ "" ∧ suffixOf f (compOf f) = "Country" ∧
      (genCell fields skips rt isP depm cmap smap row csel g f).2.1 = csel ∧
      (genCell fields skips rt isP depm cmap smap row csel g f).1 =
        ((dictGet csel (compOf f)).map (fun c => c.label)).getD "") ∨
    (compOf f ≠ "" ∧ suffixOf f (compOf f) = "StateCode" ∧
      ∃ pr : CLPair,
        ((∃ i, pr ∈ ((dictGet smap (compOf f)).getD []).getD i []) ∨ pr = ⟨"", ""⟩) ∧
        (genCell fields skips rt isP depm cmap smap row csel g f).1 = pr.value ∧
        (genCell fields skips rt isP depm cmap smap row csel g f).2.1 =
          csel ++ [(compOf f ++ "_state", pr)]) ∨
    (compOf f ≠ "" ∧ suffixOf f (compOf f) = "State" ∧
      (genCell fields skips rt isP depm cmap smap row csel g f).2.1 = csel ∧
      (genCell fields skips rt isP depm cmap smap row csel g f).1 =
        ((dictGet csel (compOf f ++ "_state")).map (fun c => c.label)).getD "") := by
  obtain ⟨res, hres⟩ : ∃ r, genCell fields skips rt isP depm cmap smap row csel g f = r :=
    ⟨_, rfl⟩
  rw [hres]
  simp only [genCell] at hres
  by_cases h0 : ¬f.createable = true ∨ f.name ∈ skips
  · rw [if_pos h0] at hres
    exact Or.inl ⟨by rw [← hres], Or.inl (by rw [← hres])⟩
  rw [if_neg h0] at hres
  by_cases h1 : f.name = "RecordTypeId"
  · rw [if_pos h1] at hres
    exact Or.inl ⟨by rw [← hres], Or.inr (Or.inl h1)⟩
  rw [if_neg h1] at hres
  by_cases h2 : strStarts f.name "Person" = true ∧ ¬isP = true
  · rw [if_pos h2] at hres
    exact Or.inl ⟨by rw [← hres], Or.inl (by rw [← hres])⟩
  rw [if_neg h2] at hres
  by_cases h3 : strEnds f.name "__pc" = true
  · rw [if_pos h3] at hres
    by_cases hp : isP = true
    · rw [if_pos hp] at hres
      exact Or.inl ⟨by rw [← hres], Or.inr (Or.inr (Or.inl h3))⟩
    · rw [if_neg hp] at hres
      exact Or.inl ⟨by rw [← hres], Or.inl (by rw [← hres])⟩
  rw [if_neg h3] at hres
  by_cases h4 : f.name = "Name"
  · rw [if_pos h4] at hres
    by_cases hp : isP = true
    · rw [if_pos hp] at hres
      exact Or.inl ⟨by rw [← hres], Or.inl (by rw [← hres])⟩
    · rw [if_neg hp] at hres
      exact Or.inl ⟨by rw [← hres], Or.inr (Or.inr (Or.inr (Or.inl h4)))⟩
  rw [if_neg h4] at hres
  by_cases h5 : f.name = "LastName"
  · rw [if_pos h5] at hres
    by_cases hp : isP = true
    · rw [if_pos hp] at hres
      exact Or.inl ⟨by rw [← hres], Or.inr (Or.inr (Or.inr (Or.inr (Or.inl h5))))⟩
    · rw [if_neg hp] at hres
      exact Or.inl ⟨by rw [← hres], Or.inl (by rw [← hres])⟩
  rw [if_neg h5] at hres
  by_cases h6 : f.name = "FirstName"
  · rw [if_pos h6] at hres
    by_cases hp : isP = true
    · rw [if_pos hp] at hres
      exact Or.inl ⟨by rw [← hres],
        Or.inr (Or.inr (Or.inr (Or.inr (Or.inr (Or.inl h6)))))⟩
    · rw [if_neg hp] at hres
      exact Or.inl ⟨by rw [← hres], Or.inl (by rw [← hres])⟩
  rw [if_neg h6] at hres
  by_cases h7 : f.name = "Salutation"
  · rw [if_pos h7] at hres
    by_cases hp : isP = true
    · rw [if_pos hp] at hres
      by_cases hopts : f.picklistValues.filterMap (fun o => o.value?) ≠ []
      · rw [if_pos hopts] at hres
        exact Or.inl ⟨by rw [← hres],
          Or.inr (Or.inr (Or.inr (Or.inr (Or.inr (Or.inr (Or.inl h7))))))⟩
      · rw [if_neg hopts] at hres
        exact Or.inl ⟨by rw [← hres], Or.inl (by rw [← hres])⟩
    · rw [if_neg hp] at hres
      exact Or.inl ⟨by rw [← hres], Or.inl (by rw [← hres])⟩
  rw [if_neg h7] at hres
  by_cases h8 : compOf f ≠ "" ∧ suffixOf f (compOf f) = "CountryCode"
  · rw [if_pos h8] at hres
    by_cases hopts : (dictGet cmap (compOf f)).getD [] ≠ []
    · rw [if_pos hopts] at hres
      exact Or.inr (Or.inl ⟨h8.1, h8.2,
        (randChoice ((dictGet cmap (compOf f)).getD []) ⟨"", ""⟩ g).1,
        Or.inl (randChoice_mem _ _ _ hopts), by rw [← hres], by rw [← hres]⟩)
    · rw [if_neg hopts] at hres
      exact Or.inr (Or.inl ⟨h8.1, h8.2, ⟨"", ""⟩, Or.inr rfl, by rw [← hres], by rw [← hres]⟩)
  rw [if_neg h8] at hres
  by_cases h9 : compOf f ≠ "" ∧ suffixOf f (compOf f) = "Country"
  · rw [if_pos h9] at hres
    exact Or.inr (Or.inr (Or.inl ⟨h9.1, h9.2, by rw [← hres], by rw [← hres]⟩))
  rw [if_neg h9] at hres
  by_cases h10 : compOf f ≠ "" ∧ suffixOf f (compOf f) = "StateCode"
  · rw [if_pos h10] at hres
    by_cases hopts : ((dictGet smap (compOf f)).getD []).getD
        ((((dictGet cmap (compOf f)).getD []).findIdx?
          (fun e => some e = dictGet csel (compOf f))).getD 0) [] ≠ []
    · rw [if_pos hopts] at hres
      refine Or.inr (Or.inr (Or.inr (Or.inl ⟨h10.1, h10.2,
        (randChoice (((dictGet smap (compOf f)).getD []).getD
          ((((dictGet cmap (compOf f)).getD []).findIdx?
            (fun e => some e = dictGet csel (compOf f))).getD 0) []) ⟨"", ""⟩ g).1,
        Or.inl ⟨(((dictGet cmap (compOf f)).getD []).findIdx?
          (fun e => some e = dictGet csel (compOf f))).getD 0,
          randChoice_mem _ _ _ hopts⟩, by rw [← hres], by rw [← hres]⟩)))
    · rw [if_neg hopts] at hres
      exact Or.inr (Or.inr (Or.inr (Or.inl ⟨h10.1, h10.2, ⟨"", ""⟩, Or.inr rfl,
        by rw [← hres], by rw [← hres]⟩)))
  rw [if_neg h10] at hres
  by_cases h11 : compOf f ≠ "" ∧ suffixOf f (compOf f) = "State"
  · rw [if_pos h11] at hres
    exact Or.inr (Or.inr (Or.inr (Or.inr ⟨h11.1, h11.2, by rw [← hres], by rw [← hres]⟩)))
  rw [if_neg h11] at hres
  have hlast : ∀ (v : String) (g' : RNG), (v, csel, g') = res →
      (res.2.1 = csel ∧
        (res.1 = "" ∨
          f.name = "RecordTypeId" ∨ strEnds f.name "__pc" = true ∨
          f.name = "Name" ∨ f.name = "LastName" ∨ f.name = "FirstName" ∨
          f.name = "Salutation" ∨
          (¬(compOf f ≠ "" ∧ suffixOf f (compOf f) = "Country") ∧
            ¬(compOf f ≠ "" ∧ suffixOf f (compOf f) = "State")))) :=
    fun v g' he => ⟨by rw [← he], Or.inr (Or.inr (Or.inr (Or.inr (Or.inr (Or.inr
      (Or.inr ⟨h9, h11⟩))))))⟩
  by_cases h12 : compOf f ≠ "" ∧ suffixOf f (compOf f) = "City"
  · rw [if_pos h12] at hres
    exact Or.inl (hlast _ _ hres)
  rw [if_neg h12] at hres
  by_cases h13 : compOf f ≠ "" ∧ suffixOf f (compOf f) = "PostalCode"
  · rw [if_pos h13] at hres
    exact Or.inl (hlast _ _ hres)
  rw [if_neg h13] at hres
  by_cases h14 : compOf f ≠ "" ∧ suffixOf f (compOf f) = "Street"
  · rw [if_pos h14] at hres
    exact Or.inl (hlast _ _ hres)
  rw [if_neg h14] at hres
  by_cases h15 : suffixOf f (compOf f) = "Latitude"
  · rw [if_pos h15] at hres
    exact Or.inl (hlast _ _ hres)
  rw [if_neg h15] at hres
  by_cases h16 : suffixOf f (compOf f) = "Longitude"
  · rw [if_pos h16] at hres
    exact Or.inl (hlast _ _ hres)
  rw [if_neg h16] at hres
  rcases htr : truthy f.controllerName? with _ | ctrl
  · rw [htr] at hres
    dsimp only at hres
    exact Or.inl (hlast _ _ hres)
  · rw [htr] at hres
    dsimp only at hres
    rcases hdg : dictGet row ctrl with _ | rv
    · rw [hdg] at hres
      dsimp only at hres
      exact Or.inl (hlast _ _ hres)
    · rw [hdg] at hres
      dsimp only at hres
      by_cases hopts : ((dictGet depm f.name).getD []).getD
          (if rv ∈ ctrlVals fields ctrl then
            List.indexOf rv (ctrlVals fields ctrl) else 0) [] ≠ []
      · rw [if_pos hopts] at hres
        exact Or.inl (hlast _ _ hres)
      · rw [if_neg hopts] at hres
        exact Or.inl (hlast _ _ hres)

theorem string_append_cancel (a b c : String) (h : a ++ c = b ++ c) : a = b := by
  have hd := congrArg String.data h
  rw [String.data_append, String.data_append] at hd
  exact String.ext (List.append_cancel_right hd)

theorem dictGet_append_fresh {α : Type} (m : List (String × α)) (k' : String) (v : α)
    (hfresh : k' ∉ m.map Prod.fst) (k : String) (w : α) (h : dictGet m k = some w) :
    dictGet (m ++ [(k', v)]) k = some w := by
  have hne : k' ≠ k := fun he => hfresh (he ▸ dictGet_key_mem m k w h)
  rw [dictGet_append_ne m k k' v hne]
  exact h

/-- Fold invariant for C5: every recorded country/state selection comes from
    an already-processed CountryCode/StateCode field of the same group whose
    own cell carries the selected code, and every emitted Country/State label
    cell is the label half of such a selection. -/
structure CompInv (fields : List FieldDef) (cmap : List (String × List CLPair))
    (smap : List (String × List (List CLPair))) (done : List FieldDef) (st : RowState) :
    Prop where
  keys : st.row.map Prod.fst = done.map FieldDef.name
  selInv : ∀ (k : String) (pr : CLPair), dictGet st.csel k = some pr →
    pr = ⟨"", ""⟩ ∨
    (∃ fcc ∈ done, compOf fcc = k ∧ suffixOf fcc (compOf fcc) = "CountryCode" ∧
      pr ∈ (dictGet cmap k).getD [] ∧ dictGet st.row fcc.name = some pr.value) ∨
    (∃ fsc ∈ done, compOf fsc ≠ "" ∧ k = compOf fsc ++ "_state" ∧
      suffixOf fsc (compOf fsc) = "StateCode" ∧
      (∃ i, pr ∈ ((dictGet smap (compOf fsc)).getD []).getD i []) ∧
      dictGet st.row fsc.name = some pr.value)
  countryCells : ∀ fL ∈ done, compOf fL ≠ "" → suffixOf fL (compOf fL) = "Country" →
    ∀ v, dictGet st.row fL.name = some v → v ≠ "" →
    ∃ pr : CLPair, v = pr.label ∧ pr ∈ (dictGet cmap (compOf fL)).getD [] ∧
      ∃ fcc ∈ done, compOf fcc = compOf fL ∧ suffixOf fcc (compOf fcc) = "CountryCode" ∧
        dictGet st.row fcc.name = some pr.value
  stateCells : ∀ fL ∈ done, compOf fL ≠ "" → suffixOf fL (compOf fL) = "State" →
    ∀ v, dictGet st.row fL.name = some v → v ≠ "" →
    ∃ pr : CLPair, v = pr.label ∧
      (∃ i, pr ∈ ((dictGet smap (compOf fL)).getD []).getD i []) ∧
      ∃ fsc ∈ done, compOf fsc = compOf fL ∧ suffixOf fsc (compOf fsc) = "StateCode" ∧
        dictGet st.row fsc.name = some pr.value

theorem CompInv_append_plain (fields : List FieldDef) (cmap : List (String × List CLPair))
    (smap : List (String × List (List CLPair))) (done : List FieldDef) (st : RowState)
    (f : FieldDef) (v : String) (g' : RNG)
    (hInv : CompInv fields cmap smap done st)
    (hfresh : f.name ∉ st.row.map Prod.fst)
    (hrole : v = "" ∨ compOf f = "" ∨
      (suffixOf f (compOf f) ≠ "Country" ∧ suffixOf f (compOf f) ≠ "State")) :
    CompInv fields cmap smap (done ++ [f]) ⟨st.row ++ [(f.name, v)], st.csel, g'⟩ := by
  constructor
  · show (st.row ++ [(f.name, v)]).map Prod.fst = (done ++ [f]).map FieldDef.name
    simp [hInv.keys]
  · intro k pr h
    rcases hInv.selInv k pr h with h1 | h2 | h3
    · exact Or.inl h1
    · obtain ⟨fcc, hm, hc, hs, hpr, hcell⟩ := h2
      exact Or.inr (Or.inl ⟨fcc, List.mem_append_left _ hm, hc, hs, hpr,
        dictGet_append_fresh _ _ _ hfresh _ _ hcell⟩)
    · obtain ⟨fsc, hm, hc, hk, hs, hpr, hcell⟩ := h3
      exact Or.inr (Or.inr ⟨fsc, List.mem_append_left _ hm, hc, hk, hs, hpr,
        dictGet_append_fresh _ _ _ hfresh _ _ hcell⟩)
  · intro fL hfL hcomp hsfx v' hv' hne
    rcases List.mem_append.mp hfL with hd | hnew
    · have hne' : f.name ≠ fL.name := by
        intro he
        apply hfresh
        rw [he, hInv.keys]
        exact List.mem_map.mpr ⟨fL, hd, rfl⟩
      rw [dictGet_append_ne _ _ _ _ hne'] at hv'
      obtain ⟨pr, hlab, hprm, fcc, hfm, hcc, hcs, hcell⟩ :=
        hInv.countryCells fL hd hcomp hsfx v' hv' hne
      exact ⟨pr, hlab, hprm, fcc, List.mem_append_left _ hfm, hcc, hcs,
        dictGet_append_fresh _ _ _ hfresh _ _ hcell⟩
    · rw [List.mem_singleton.mp hnew] at hcomp hsfx hv'
      rw [dictGet_append_self] at hv'
      rcases hrole with hr | hr | hr
      · rw [← Option.some.inj hv', hr] at hne
        exact absurd rfl hne
      · exact absurd hr hcomp
      · exact absurd hsfx hr.1
  · intro fL hfL hcomp hsfx v' hv' hne
    rcases List.mem_append.mp hfL with hd | hnew
    · have hne' : f.name ≠ fL.name := by
        intro he
        apply hfresh
        rw [he, hInv.keys]
        exact List.mem_map.mpr ⟨fL, hd, rfl⟩
      rw [dictGet_append_ne _ _ _ _ hne'] at hv'
      obtain ⟨pr, hlab, hprm, fsc, hfm, hcc, hcs, hcell⟩ :=
        hInv.stateCells fL hd hcomp hsfx v' hv' hne
      exact ⟨pr, hlab, hprm, fsc, List.mem_append_left _ hfm, hcc, hcs,
        dictGet_append_fresh _ _ _ hfresh _ _ hcell⟩
    · rw [List.mem_singleton.mp hnew] at hcomp hsfx hv'
      rw [dictGet_append_self] at hv'
      rcases hrole with hr | hr | hr
      · rw [← Option.some.inj hv', hr] at hne
        exact absurd rfl hne
      · exact absurd hr hcomp
      · exact absurd hsfx hr.2

theorem CompInv_lift_cells (fields : List FieldDef) (cmap : List (String × List CLPair))
    (smap : List (String × List (List CLPair))) (done : List FieldDef) (st : RowState)
    (f : FieldDef) (v : String)
    (hInv : CompInv fields cmap smap done st)
    (hfresh : f.name ∉ st.row.map Prod.fst)
    (fL : FieldDef) (hd : fL ∈ done) :
    ∀ w, dictGet (st.row ++ [(f.name, v)]) fL.name = some w →
      dictGet st.row fL.name = some w := by
  intro w hw
  have hne' : f.name ≠ fL.name := by
    intro he
    apply hfresh
    rw [he, hInv.keys]
    exact List.mem_map.mpr ⟨fL, hd, rfl⟩
  rw [dictGet_append_ne _ _ _ _ hne'] at hw
  exact hw

theorem CompInv_append_cc (fields : List FieldDef) (cmap : List (String × List CLPair))
    (smap : List (String × List (List CLPair))) (done : List FieldDef) (st : RowState)
    (f : FieldDef) (pr : CLPair) (g' : RNG)
    (hInv : CompInv fields cmap smap done st)
    (hfresh : f.name ∉ st.row.map Prod.fst)
    (hcomp : compOf f ≠ "") (hsfx : suffixOf f (compOf f) = "CountryCode")
    (hpr : pr ∈ (dictGet cmap (compOf f)).getD [] ∨ pr = ⟨"", ""⟩) :
    CompInv fields cmap smap (done ++ [f])
      ⟨st.row ++ [(f.name, pr.value)], st.csel ++ [(compOf f, pr)], g'⟩ := by
  constructor
  · show (st.row ++ [(f.name, pr.value)]).map Prod.fst = (done ++ [f]).map FieldDef.name
    simp [hInv.keys]
  · intro k pr' h
    by_cases hk : compOf f = k
    · subst hk
      rw [dictGet_append_self] at h
      rw [← Option.some.inj h]
      rcases hpr with hm | hdef
      · exact Or.inr (Or.inl ⟨f, List.mem_append_right _ (List.mem_singleton_self f),
          rfl, hsfx, hm, dictGet_append_self _ _ _⟩)
      · exact Or.inl hdef
    · rw [dictGet_append_ne _ _ _ _ hk] at h
      rcases hInv.selInv k pr' h with h1 | h2 | h3
      · exact Or.inl h1
      · obtain ⟨fcc, hm, hc, hs, hprm, hcell⟩ := h2
        exact Or.inr (Or.inl ⟨fcc, List.mem_append_left _ hm, hc, hs, hprm,
          dictGet_append_fresh _ _ _ hfresh _ _ hcell⟩)
      · obtain ⟨fsc, hm, hc, hk', hs, hprm, hcell⟩ := h3
        exact Or.inr (Or.inr ⟨fsc, List.mem_append_left _ hm, hc, hk', hs, hprm,
          dictGet_append_fresh _ _ _ hfresh _ _ hcell⟩)
  · intro fL hfL hcomp' hsfx' v' hv' hne
    rcases List.mem_append.mp hfL with hd | hnew
    · obtain ⟨pr', hlab, hprm, fcc, hfm, hcc, hcs, hcell⟩ :=
        hInv.countryCells fL hd hcomp' hsfx' v'
          (CompInv_lift_cells fields cmap smap done st f pr.value hInv hfresh fL hd v' hv')
          hne
      exact ⟨pr', hlab, hprm, fcc, List.mem_append_left _ hfm, hcc, hcs,
        dictGet_append_fresh _ _ _ hfresh _ _ hcell⟩
    · rw [List.mem_singleton.mp hnew] at hsfx'
      rw [hsfx'] at hsfx
      exact absurd hsfx (by decide)
  · intro fL hfL hcomp' hsfx' v' hv' hne
    rcases List.mem_append.mp hfL with hd | hnew
    · obtain ⟨pr', hlab, hprm, fsc, hfm, hcc, hcs, hcell⟩ :=
        hInv.stateCells fL hd hcomp' hsfx' v'
          (CompInv_lift_cells fields cmap smap done st f pr.value hInv hfresh fL hd v' hv')
          hne
      exact ⟨pr', hlab, hprm, fsc, List.mem_append_left _ hfm, hcc, hcs,
        dictGet_append_fresh _ _ _ hfresh _ _ hcell⟩
    · rw [List.mem_singleton.mp hnew] at hsfx'
      rw [hsfx'] at hsfx
      exact absurd hsfx (by decide)

theorem CompInv_append_sc (fields : List FieldDef) (cmap : List (String × List CLPair))
    (smap : List (String × List (List CLPair))) (done : List FieldDef) (st : RowState)
    (f : FieldDef) (pr : CLPair) (g' : RNG)
    (hInv : CompInv fields cmap smap done st)
    (hfresh : f.name ∉ st.row.map Prod.fst)
    (hcomp : compOf f ≠ "") (hsfx : suffixOf f (compOf f) = "StateCode")
    (hpr : (∃ i, pr ∈ ((dictGet smap (compOf f)).getD []).getD i []) ∨ pr = ⟨"", ""⟩) :
    CompInv fields cmap smap (done ++ [f])
      ⟨st.row ++ [(f.name, pr.value)], st.csel ++ [(compOf f ++ "_state", pr)], g'⟩ := by
  constructor
  · show (st.row ++ [(f.name, pr.value)]).map Prod.fst = (done ++ [f]).map FieldDef.name
    simp [hInv.keys]
  · intro k pr' h
    by_cases hk : compOf f ++ "_state" = k
    · subst hk
      rw [dictGet_append_self] at h
      rw [← Option.some.inj h]
      rcases hpr with hm | hdef
      · exact Or.inr (Or.inr ⟨f, List.mem_append_right _ (List.mem_singleton_self f),
          hcomp, rfl, hsfx, hm, dictGet_append_self _ _ _⟩)
      · exact Or.inl hdef
    · rw [dictGet_append_ne _ _ _ _ hk] at h
      rcases hInv.selInv k pr' h with h1 | h2 | h3
      · exact Or.inl h1
      · obtain ⟨fcc, hm, hc, hs, hprm, hcell⟩ := h2
        exact Or.inr (Or.inl ⟨fcc, List.mem_append_left _ hm, hc, hs, hprm,
          dictGet_append_fresh _ _ _ hfresh _ _ hcell⟩)
      · obtain ⟨fsc, hm, hc, hk', hs, hprm, hcell⟩ := h3
        exact Or.inr (Or.inr ⟨fsc, List.mem_append_left _ hm, hc, hk', hs, hprm,
          dictGet_append_fresh _ _ _ hfresh _ _ hcell⟩)
  · intro fL hfL hcomp' hsfx' v' hv' hne
    rcases List.mem_append.mp hfL with hd | hnew
    · obtain ⟨pr', hlab, hprm, fcc, hfm, hcc, hcs, hcell⟩ :=
        hInv.countryCells fL hd hcomp' hsfx' v'
          (CompInv_lift_cells fields cmap smap done st f pr.value hInv hfresh fL hd v' hv')
          hne
      exact ⟨pr', hlab, hprm, fcc, List.mem_append_left _ hfm, hcc, hcs,
        dictGet_append_fresh _ _ _ hfresh _ _ hcell⟩
    · rw [List.mem_singleton.mp hnew] at hsfx'
      rw [hsfx'] at hsfx
      exact absurd hsfx (by decide)
  · intro fL hfL hcomp' hsfx' v' hv' hne
    rcases List.mem_append.mp hfL with hd | hnew
    · obtain ⟨pr', hlab, hprm, fsc, hfm, hcc, hcs, hcell⟩ :=
        hInv.stateCells fL hd hcomp' hsfx' v'
          (CompInv_lift_cells fields cmap smap done st f pr.value hInv hfresh fL hd v' hv')
          hne
      exact ⟨pr', hlab, hprm, fsc, List.mem_append_left _ hfm, hcc, hcs,
        dictGet_append_fresh _ _ _ hfresh _ _ hcell⟩
    · rw [List.mem_singleton.mp hnew] at hsfx'
      rw [hsfx'] at hsfx
      exact absurd hsfx (by decide)

theorem CompInv_append_country (fields : List FieldDef) (cmap : List (String × List CLPair))
    (smap : List (String × List (List CLPair))) (done : List FieldDef) (st : RowState)
    (f : FieldDef) (g' : RNG)
    (hInv : CompInv fields cmap smap done st)
    (hfresh : f.name ∉ st.row.map Prod.fst)
    (hdone_sub : ∀ x ∈ done, x ∈ fields) (hf_mem : f ∈ fields)
    (Hstate : ∀ f1 ∈ fields, ∀ f2 ∈ fields, compOf f1 ≠ compOf f2 ++ "_state")
    (hcomp : compOf f ≠ "") (hsfx : suffixOf f (compOf f) = "Country") :
    CompInv fields cmap smap (done ++ [f])
      ⟨st.row ++ [(f.name,
        ((dictGet st.csel (compOf f)).map (fun c => c.label)).getD "")], st.csel, g'⟩ := by
  constructor
  · show _ = (done ++ [f]).map FieldDef.name
    simp [hInv.keys]
  · intro k pr h
    rcases hInv.selInv k pr h with h1 | h2 | h3
    · exact Or.inl h1
    · obtain ⟨fcc, hm, hc, hs, hpr, hcell⟩ := h2
      exact Or.inr (Or.inl ⟨fcc, List.mem_append_left _ hm, hc, hs, hpr,
        dictGet_append_fresh _ _ _ hfresh _ _ hcell⟩)
    · obtain ⟨fsc, hm, hc, hk, hs, hpr, hcell⟩ := h3
      exact Or.inr (Or.inr ⟨fsc, List.mem_append_left _ hm, hc, hk, hs, hpr,
        dictGet_append_fresh _ _ _ hfresh _ _ hcell⟩)
  · intro fL hfL hcomp' hsfx' v' hv' hne
    rcases List.mem_append.mp hfL with hd | hnew
    · obtain ⟨pr', hlab, hprm, fcc, hfm, hcc, hcs, hcell⟩ :=
        hInv.countryCells fL hd hcomp' hsfx' v'
          (CompInv_lift_cells fields cmap smap done st f _ hInv hfresh fL hd v' hv') hne
      exact ⟨pr', hlab, hprm, fcc, List.mem_append_left _ hfm, hcc, hcs,
        dictGet_append_fresh _ _ _ hfresh _ _ hcell⟩
    · have hfeq := List.mem_singleton.mp hnew
      rw [hfeq] at hv' hcomp' hsfx' ⊢
      rw [dictGet_append_self] at hv'
      have hv'' := Option.some.inj hv'
      rcases hsel : dictGet st.csel (compOf f) with _ | pr
      · rw [hsel] at hv''
        rw [← hv''] at hne
        exact absurd rfl hne
      · rw [hsel] at hv''
        have hlab : v' = pr.label := hv''.symm
        rcases hInv.selInv (compOf f) pr hsel with h1 | h2 | h3
        · rw [h1] at hlab
          rw [hlab] at hne
          exact absurd rfl hne
        · obtain ⟨fcc, hm, hc, hs, hpr, hcell⟩ := h2
          exact ⟨pr, hlab, hpr, fcc, List.mem_append_left _ hm, hc, hs,
            dictGet_append_fresh _ _ _ hfresh _ _ hcell⟩
        · obtain ⟨fsc, hm, hc, hk, hs, hpr, hcell⟩ := h3
          exact absurd hk (Hstate f hf_mem fsc (hdone_sub fsc hm))
  · intro fL hfL hcomp' hsfx' v' hv' hne
    rcases List.mem_append.mp hfL with hd | hnew
    · obtain ⟨pr', hlab, hprm, fsc, hfm, hcc, hcs, hcell⟩ :=
        hInv.stateCells fL hd hcomp' hsfx' v'
          (CompInv_lift_cells fields cmap smap done st f _ hInv hfresh fL hd v' hv') hne
      exact ⟨pr', hlab, hprm, fsc, List.mem_append_left _ hfm, hcc, hcs,
        dictGet_append_fresh _ _ _ hfresh _ _ hcell⟩
    · rw [List.mem_singleton.mp hnew] at hsfx'
      rw [hsfx'] at hsfx
      exact absurd hsfx (by decide)

theorem CompInv_append_state (fields : List FieldDef) (cmap : List (String × List CLPair))
    (smap : List (String × List (List CLPair))) (done : List FieldDef) (st : RowState)
    (f : FieldDef) (g' : RNG)
    (hInv : CompInv fields cmap smap done st)
    (hfresh : f.name ∉ st.row.map Prod.fst)
    (hdone_sub : ∀ x ∈ done, x ∈ fields) (hf_mem : f ∈ fields)
    (Hstate : ∀ f1 ∈ fields, ∀ f2 ∈ fields, compOf f1 ≠ compOf f2 ++ "_state")
    (hcomp : compOf f ≠ "") (hsfx : suffixOf f (compOf f) = "State") :
    CompInv fields cmap smap (done ++ [f])
      ⟨st.row ++ [(f.name,
        ((dictGet st.csel (compOf f ++ "_state")).map (fun c => c.label)).getD "")],
        st.csel, g'⟩ := by
  constructor
  · show _ = (done ++ [f]).map FieldDef.name
    simp [hInv.keys]
  · intro k pr h
    rcases hInv.selInv k pr h with h1 | h2 | h3
    · exact Or.inl h1
    · obtain ⟨fcc, hm, hc, hs, hpr, hcell⟩ := h2
      exact Or.inr (Or.inl ⟨fcc, List.mem_append_left _ hm, hc, hs, hpr,
        dictGet_append_fresh _ _ _ hfresh _ _ hcell⟩)
    · obtain ⟨fsc, hm, hc, hk, hs, hpr, hcell⟩ := h3
      exact Or.inr (Or.inr ⟨fsc, List.mem_append_left _ hm, hc, hk, hs, hpr,
        dictGet_append_fresh _ _ _ hfresh _ _ hcell⟩)
  · intro fL hfL hcomp' hsfx' v' hv' hne
    rcases List.mem_append.mp hfL with hd | hnew
    · obtain ⟨pr', hlab, hprm, fcc, hfm, hcc, hcs, hcell⟩ :=
        hInv.countryCells fL hd hcomp' hsfx' v'
          (CompInv_lift_cells fields cmap smap done st f _ hInv hfresh fL hd v' hv') hne
      exact ⟨pr', hlab, hprm, fcc, List.mem_append_left _ hfm, hcc, hcs,
        dictGet_append_fresh _ _ _ hfresh _ _ hcell⟩
    · rw [List.mem_singleton.mp hnew] at hsfx'
      rw [hsfx'] at hsfx
      exact absurd hsfx (by decide)
  · intro fL hfL hcomp' hsfx' v' hv' hne
    rcases List.mem_append.mp hfL with hd | hnew
    · obtain ⟨pr', hlab, hprm, fsc, hfm, hcc, hcs, hcell⟩ :=
        hInv.stateCells fL hd hcomp' hsfx' v'
          (CompInv_lift_cells fields cmap smap done st f _ hInv hfresh fL hd v' hv') hne
      exact ⟨pr', hlab, hprm, fsc, List.mem_append_left _ hfm, hcc, hcs,
        dictGet_append_fresh _ _ _ hfresh _ _ hcell⟩
    · have hfeq := List.mem_singleton.mp hnew
      rw [hfeq] at hv' hcomp' hsfx' ⊢
      rw [dictGet_append_self] at hv'
      have hv'' := Option.some.inj hv'
      rcases hsel : dictGet st.csel (compOf f ++ "_state") with _ | pr
      · rw [hsel] at hv''
        rw [← hv''] at hne
        exact absurd rfl hne
      · rw [hsel] at hv''
        have hlab : v' = pr.label := hv''.symm
        rcases hInv.selInv (compOf f ++ "_state") pr hsel with h1 | h2 | h3
        · rw [h1] at hlab
          rw [hlab] at hne
          exact absurd rfl hne
        · obtain ⟨fcc, hm, hc, hs, hpr, hcell⟩ := h2
          exact absurd hc (Hstate fcc (hdone_sub fcc hm) f hf_mem)
        · obtain ⟨fsc, hm, hc, hk, hs, hpr, hcell⟩ := h3
          have hceq : compOf fsc = compOf f :=
            string_append_cancel _ _ _ hk.symm
          rw [hceq] at hpr
          exact ⟨pr, hlab, hpr, fsc, List.mem_append_left _ hm, hceq, hs,
            dictGet_append_fresh _ _ _ hfresh _ _ hcell⟩

theorem genField_eq (fields : List FieldDef) (skips : List String) (rt : String)
    (isP : Bool) (depm : List (String × List (List String)))
    (cmap : List (String × List CLPair)) (smap : List (String × List (List CLPair)))
    (st : RowState) (fdef : FieldDef) :
    genField fields skips rt isP depm cmap smap st fdef =
      ⟨st.row ++ [(fdef.name,
        (genCell fields skips rt isP depm cmap smap st.row st.csel st.g fdef).1)],
       (genCell fields skips rt isP depm cmap smap st.row st.csel st.g fdef).2.1,
       (genCell fields skips rt isP depm cmap smap st.row st.csel st.g fdef).2.2⟩ := rfl

theorem CompInv_step (fields : List FieldDef) (skips : List String) (rt : String)
    (isP : Bool) (depm : List (String × List (List String)))
    (cmap : List (String × List CLPair)) (smap : List (String × List (List CLPair)))
    (Hstate : ∀ f1 ∈ fields, ∀ f2 ∈ fields, compOf f1 ≠ compOf f2 ++ "_state")
    (hnodup : (fields.map FieldDef.name).Nodup)
    (done todo : List FieldDef) (f : FieldDef)
    (hfields : fields = done ++ f :: todo)
    (st : RowState) (hInv : CompInv fields cmap smap done st) :
    CompInv fields cmap smap (done ++ [f])
      (genField fields skips rt isP depm cmap smap st f) := by
  have hf_mem : f ∈ fields := by
    rw [hfields]
    exact List.mem_append_right _ (List.mem_cons_self f todo)
  have hdone_sub : ∀ x ∈ done, x ∈ fields := by
    intro x hx
    rw [hfields]
    exact List.mem_append_left _ hx
  have hfresh : f.name ∉ st.row.map Prod.fst := by
    rw [hInv.keys]
    intro hmem
    rw [hfields] at hnodup
    simp only [List.map_append, List.map_cons] at hnodup
    rcases List.nodup_append.mp hnodup with ⟨_, _, hdisj⟩
    exact hdisj hmem (List.mem_cons_self _ _)
  rw [genField_eq]
  rcases genCell_shape fields skips rt isP depm cmap smap st.row st.csel st.g f with
    ⟨hcsel, hval⟩ | ⟨hc, hs, pr, hpr, hval, hcsel⟩ | ⟨hc, hs, hcsel, hval⟩ |
    ⟨hc, hs, pr, hpr, hval, hcsel⟩ | ⟨hc, hs, hcsel, hval⟩
  · rw [hcsel]
    apply CompInv_append_plain fields cmap smap done st f _ _ hInv hfresh
    rcases hval with hv | hv | hv | hv | hv | hv | hv | hv
    · exact Or.inl hv
    · exact Or.inr (Or.inr (suffixOf_name_special f _ (Or.inl hv)))
    · exact Or.inr (Or.inr (suffixOf_pc_not_cs f _ hv))
    · exact Or.inr (Or.inr (suffixOf_name_special f _ (Or.inr (Or.inl hv))))
    · exact Or.inr (Or.inr (suffixOf_name_special f _ (Or.inr (Or.inr (Or.inl hv)))))
    · exact Or.inr (Or.inr
        (suffixOf_name_special f _ (Or.inr (Or.inr (Or.inr (Or.inl hv))))))
    · exact Or.inr (Or.inr
        (suffixOf_name_special f _ (Or.inr (Or.inr (Or.inr (Or.inr hv))))))
    · by_cases hc0 : compOf f = ""
      · exact Or.inr (Or.inl hc0)
      · exact Or.inr (Or.inr
          ⟨fun hs' => hv.1 ⟨hc0, hs'⟩, fun hs' => hv.2 ⟨hc0, hs'⟩⟩)
  · rw [hval, hcsel]
    exact CompInv_append_cc fields cmap smap done st f pr _ hInv hfresh hc hs hpr
  · rw [hval, hcsel]
    exact CompInv_append_country fields cmap smap done st f _ hInv hfresh hdone_sub
      hf_mem Hstate hc hs
  · rw [hval, hcsel]
    exact CompInv_append_sc fields cmap smap done st f pr _ hInv hfresh hc hs hpr
  · rw [hval, hcsel]
    exact CompInv_append_state fields cmap smap done st f _ hInv hfresh hdone_sub
      hf_mem Hstate hc hs

theorem CompInv_fold (fields : List FieldDef) (skips : List String) (rt : String)
    (isP : Bool) (depm : List (String × List (List String)))
    (cmap : List (String × List CLPair)) (smap : List (String × List (List CLPair)))
    (Hstate : ∀ f1 ∈ fields, ∀ f2 ∈ fields, compOf f1 ≠ compOf f2 ++ "_state")
    (hnodup : (fields.map FieldDef.name).Nodup) :
    ∀ (todo done : List FieldDef) (st : RowState),
      fields = done ++ todo → CompInv fields cmap smap done st →
      CompInv fields cmap smap fields
        (todo.foldl (genField fields skips rt isP depm cmap smap) st) := by
  intro todo
  induction todo with
  | nil =>
    intro done st hf hInv
    rw [List.append_nil] at hf
    subst hf
    exact hInv
  | cons f tl ih =>
    intro done st hf hInv
    simp only [List.foldl_cons]
    refine ih (done ++ [f]) _ (by rw [hf]; simp) ?_
    exact CompInv_step fields skips rt isP depm cmap smap Hstate hnodup done tl f hf
      st hInv

/- ### C5: compound Country/State labels are derived, never independent -/

/-- C5 counterexample: the generator keeps one flat selection dict whose
    state entries are keyed prefix ++ "_state".  With groups "X" and
    "X_state" (unique field names), the "X_state" group's Country label
    field reads group "X"'s state selection and emits the non-empty label
    "California", although the "X_state" group has no CountryCode field at
    all — so no CountryCode cell of that group pairs with it, refuting the
    claim as stated. -/
theorem sfC5_counterexample :
    ((filteredFields metaCollide).map FieldDef.name).Nodup ∧
    compOf fXSCountry = "X_state" ∧
    suffixOf fXSCountry (compOf fXSCountry) = "Country" ∧
    dictGet (genRow metaCollide [] none gZero).1 "X_stateCountry" = some "California" ∧
    ("California" : String) ≠ "" ∧
    (∀ f ∈ filteredFields metaCollide,
      ¬(compOf f = "X_state" ∧ suffixOf f (compOf f) = "CountryCode")) ∧
    dictGet (buildCompoundMaps (filteredFields metaCollide)).1 "X_state" = none := by
  refine ⟨by decide, by decide, by decide, by decide, by decide, by decide, by decide⟩

/-- C5 amended: for schemas with unique field names in which no
    compound-group prefix equals another group's prefix followed by
    "_state" (the flat selection dict keys state selections that way, so
    such a prefix would read another group's state selection as its own
    country selection), every non-empty Country label cell equals the label
    component of a country option pair whose code component was emitted into
    a CountryCode cell of the same group, the pair coming from a CountryCode
    field's own picklist options; likewise State labels against StateCode —
    label fields carry no independent value. -/
theorem sfC5_compound_labels (meta : Describe) (skips : List String) (p? : Option String)
    (g : RNG)
    (hnodup : ((filteredFields meta).map FieldDef.name).Nodup)
    (Hstate : ∀ f1 ∈ filteredFields meta, ∀ f2 ∈ filteredFields meta,
      compOf f1 ≠ compOf f2 ++ "_state") :
    ∀ fL ∈ filteredFields meta, compOf fL ≠ "" →
    ∀ v, dictGet (genRow meta skips p? g).1 fL.name = some v → v ≠ "" →
    ((suffixOf fL (compOf fL) = "Country" →
      ∃ pr : CLPair, v = pr.label ∧
        (∃ fcc ∈ filteredFields meta, compOf fcc = compOf fL ∧
          suffixOf fcc (compOf fcc) = "CountryCode" ∧
          dictGet (genRow meta skips p? g).1 fcc.name = some pr.value) ∧
        (∃ fsrc ∈ filteredFields meta, compOf fsrc = compOf fL ∧
          suffixOf fsrc (compOf fsrc) = "CountryCode" ∧ optionPair fsrc pr)) ∧
     (suffixOf fL (compOf fL) = "State" →
      ∃ pr : CLPair, v = pr.label ∧
        (∃ fsc ∈ filteredFields meta, compOf fsc = compOf fL ∧
          suffixOf fsc (compOf fsc) = "StateCode" ∧
          dictGet (genRow meta skips p? g).1 fsc.name = some pr.value) ∧
        (∃ fsrc ∈ filteredFields meta, compOf fsrc = compOf fL ∧
          suffixOf fsrc (compOf fsrc) = "StateCode" ∧ optionPair fsrc pr))) := by
  intro fL hfL hcomp v hv hne
  have hinit : CompInv (filteredFields meta) (buildCompoundMaps (filteredFields meta)).1
      (buildCompoundMaps (filteredFields meta)).2 [] ⟨[], [], (pickRT meta g).2⟩ := by
    constructor
    · rfl
    · intro k pr h
      exact Option.noConfusion h
    · intro fL' h
      exact absurd h (List.not_mem_nil fL')
    · intro fL' h
      exact absurd h (List.not_mem_nil fL')
  have hfold := CompInv_fold (filteredFields meta) skips (pickRT meta g).1
    (personFlag meta p? (pickRT meta g).1) (dep_map (filteredFields meta))
    (buildCompoundMaps (filteredFields meta)).1 (buildCompoundMaps (filteredFields meta)).2
    Hstate hnodup (filteredFields meta) [] ⟨[], [], (pickRT meta g).2⟩ rfl hinit
  rw [genRow_row_eq] at hv
  constructor
  · intro hsfx
    obtain ⟨pr, hlab, hprm, fcc, hfm, hcc, hcs, hcell⟩ :=
      hfold.countryCells fL hfL hcomp hsfx v hv hne
    rcases hd : dictGet (buildCompoundMaps (filteredFields meta)).1 (compOf fL)
      with _ | e
    · rw [hd] at hprm
      simp at hprm
    · rw [hd] at hprm
      have hpre : pr ∈ e := hprm
      have hmem := dictGet_mem _ _ _ hd
      rcases buildCM_cmap_entries (filteredFields meta) ([], []) _ hmem with
        hin | ⟨fsrc, hfsm, hc', hs', heq⟩
      · exact absurd hin (List.not_mem_nil _)
      · simp only [Prod.mk.injEq] at heq
        refine ⟨pr, hlab, ⟨fcc, hfm, hcc, hcs, by rw [genRow_row_eq]; exact hcell⟩,
          ⟨fsrc, hfsm, heq.1.symm, hs', clPairs_optionPair fsrc pr (heq.2 ▸ hpre)⟩⟩
  · intro hsfx
    obtain ⟨pr, hlab, ⟨i, hpri⟩, fsc, hfm, hcc, hcs, hcell⟩ :=
      hfold.stateCells fL hfL hcomp hsfx v hv hne
    rcases hd : dictGet (buildCompoundMaps (filteredFields meta)).2 (compOf fL)
      with _ | mp
    · rw [hd] at hpri
      simp at hpri
    · rw [hd] at hpri
      have hprm : pr ∈ mp.getD i [] := hpri
      have hmem := dictGet_mem _ _ _ hd
      rcases buildCM_smap_entries (filteredFields meta) ([], []) _ hmem with
        hin | ⟨fsrc, hfsm, hc', hs', hfst, hall⟩
      · exact absurd hin (List.not_mem_nil _)
      · refine ⟨pr, hlab, ⟨fsc, hfm, hcc, hcs, by rw [genRow_row_eq]; exact hcell⟩,
          ⟨fsrc, hfsm, ?_, hs', hall i pr hprm⟩⟩
        exact hfst.symm

theorem sfC5_compound_labels_witness :
    ∃ pr : CLPair, ("Japan" : String) = pr.label ∧
      (∃ fcc ∈ filteredFields metaCompound, compOf fcc = compOf fTestCountry ∧
        suffixOf fcc (compOf fcc) = "CountryCode" ∧
        dictGet (genRow metaCompound [] none gZero).1 fcc.name = some pr.value) ∧
      (∃ fsrc ∈ filteredFields metaCompound, compOf fsrc = compOf fTestCountry ∧
        suffixOf fsrc (compOf fsrc) = "CountryCode" ∧ optionPair fsrc pr) := by
  exact (sfC5_compound_labels metaCompound [] none gZero (by decide)
    (by decide) fTestCountry (by decide) (by decide) "Japan" (by decide) (by decide)).1
    (by decide)

end SfGen
